import Mathlib

/-!
Shallow embedding of the plugin system (plugin lifecycle manager, capability-gated
resource proxies, event-bus adapter) of `hands-on-plugin-system-for-back`.

The TypeScript sources embedded here:
- `src/plugin-system/plugin-manager.service.ts` (PluginManagerService)
- `src/repositories/s3/s3.repository.impl.ts` (S3RepositoryImpl)
- `src/repositories/database/database.repository.impl.ts` (DatabaseRepositoryImpl)
- `src/utils/naming-validation.ts` (naming validators)
- `src/errors/plugin-errors.ts` (typed error taxonomy)

Conventions of the embedding:
- JS `Map` is an association list `List (String × α)` preserving insertion order
  (`Map.set` updates in place or appends, `Map.delete` removes the entry).
- JS `Set` is a duplicate-free `List String` preserving first-insertion order.
- Exceptions of stateful methods are `PMState × Option ε` / `PMState × Except ε α`:
  the returned state carries every mutation performed before the throw, exactly as
  a thrown JS exception leaves mutations in place.
- I/O (dynamic `import`, file discovery, the backing services) is modelled by
  explicit parameters: a resolved module value, a hook-success flag, a
  load-success oracle; a proxy operation returns the arguments of the delegated
  backing-service call instead of performing it.
-/

namespace PluginSys

/-! ## Association-list maps and insertion-ordered sets (JS `Map` / `Set`) -/

/-- Model of `Map.get`: first binding of a key in an association list. -/
def mapGet (m : List (String × α)) (k : String) : Option α :=
  match m with
  | [] => none
  | (k', v) :: rest => if k' = k then some v else mapGet rest k

/-- Model of `Map.set`: replace the value in place if the key exists, else append. -/
def mapSet (m : List (String × α)) (k : String) (v : α) : List (String × α) :=
  match m with
  | [] => [(k, v)]
  | (k', v') :: rest => if k' = k then (k', v) :: rest else (k', v') :: mapSet rest k v

/-- Model of `Map.delete`: remove the binding of a key (it occurs at most once). -/
def mapDelete (m : List (String × α)) (k : String) : List (String × α) :=
  match m with
  | [] => []
  | (k', v') :: rest => if k' = k then rest else (k', v') :: mapDelete rest k

/-- Model of `Map.has`. -/
def mapHas (m : List (String × α)) (k : String) : Bool :=
  (mapGet m k).isSome

/-- Model of `Set.add`: append if not already present. -/
def setAdd (s : List String) (k : String) : List String :=
  if k ∈ s then s else s ++ [k]

/-- Worker for `dedupFirst`: drop elements already seen. -/
def dedupFirstGo : List String → List String → List String
  | [], _ => []
  | x :: rest, seen =>
    if x ∈ seen then dedupFirstGo rest seen else x :: dedupFirstGo rest (x :: seen)

/-- Model of `new Set(list)`: deduplicate keeping the first occurrence of each element. -/
def dedupFirst (l : List String) : List String :=
  dedupFirstGo l []

/-- JS `x || y` on an optional string: `y` when absent or empty (falsy). -/
def jsOr (x : Option String) (y : String) : String :=
  match x with
  | none => y
  | some s => if s = "" then y else s

/-- JS `String.prototype.replace(pat, "")` with a plain-string pattern:
remove the first occurrence of `pat` (on character lists). -/
def removeFirstOcc (s pat : List Char) : List Char :=
  match s with
  | [] => []
  | c :: rest =>
    if pat.isPrefixOf (c :: rest) then (c :: rest).drop pat.length
    else c :: removeFirstOcc rest pat

/-- JS `String.prototype.replace(pat, rep)` with a plain-string pattern:
replace the first occurrence of `pat` by `rep` (on character lists). -/
def replaceFirstOcc (s pat rep : List Char) : List Char :=
  match s with
  | [] => []
  | c :: rest =>
    if pat.isPrefixOf (c :: rest) then rep ++ (c :: rest).drop pat.length
    else c :: replaceFirstOcc rest pat rep

/-- String form of `removeFirstOcc` (used for un-prefixing resource names:
`name.replace(slug + "_", "")`). -/
def strRemoveFirst (s pat : String) : String :=
  String.mk (removeFirstOcc s.data pat.data)

/-- JS `String.prototype.startsWith`, phrased over character lists so that it
reduces in the kernel. -/
def strStarts (s pre : String) : Bool :=
  pre.data.isPrefixOf s.data

/-- Equality of `Except` values is decidable componentwise. -/
instance {ε α : Type} [DecidableEq ε] [DecidableEq α] :
    DecidableEq (Except ε α) := fun a b =>
  match a, b with
  | .ok x, .ok y =>
    if h : x = y then isTrue (by rw [h]) else isFalse (fun hh => h (by cases hh; rfl))
  | .ok _, .error _ => isFalse (fun hh => by cases hh)
  | .error _, .ok _ => isFalse (fun hh => by cases hh)
  | .error x, .error y =>
    if h : x = y then isTrue (by rw [h]) else isFalse (fun hh => h (by cases hh; rfl))

/-! ## Object-store proxy (`S3RepositoryImpl`) -/

/-- Model of `BucketAccessDeniedError(bucketName, allowedBuckets)` from `s3.errors.ts`. -/
inductive S3Error where
  | bucketAccessDenied (bucketName : String) (allowedBuckets : List String)
  deriving DecidableEq, Repr

/-- The fields of `S3RepositoryImpl` (the backing `S3Service` is left implicit:
operations return the arguments of the delegated call). -/
structure S3Repo where
  allowedBuckets : List String
  pluginSlug : String
  nameMap : List (String × String)
  deriving DecidableEq, Repr

/-- Model of `S3RepositoryImpl` constructor: buckets arrive already prefixed by the plugin
manager and are stored as a `Set` as-is; absent name map means empty map. -/
def s3RepoNew (allowedBuckets : List String) (pluginSlug : String)
    (nameMap : Option (List (String × String))) : S3Repo :=
  { allowedBuckets := dedupFirst allowedBuckets
    pluginSlug := pluginSlug
    nameMap := nameMap.getD [] }

/-- Model of `S3RepositoryImpl.prefixBucketName`: apply the name map if present
(JS `this.nameMap.get(bucket) || bucket`), then prepend `{slug}_` unless the
mapped name already starts with it. -/
def prefixBucketName (r : S3Repo) (bucket : String) : String :=
  let mappedBucket := jsOr (mapGet r.nameMap bucket) bucket
  if strStarts mappedBucket (r.pluginSlug ++ "_") then mappedBucket
  else r.pluginSlug ++ "_" ++ mappedBucket

/-- The unprefixed allowed-bucket enumeration used in error messages and
`getAllowedBuckets`: `Array.from(allowedBuckets).map(b => b.replace(slug_, ""))`. -/
def s3UnprefixedAllowed (r : S3Repo) : List String :=
  r.allowedBuckets.map (fun b => strRemoveFirst b (r.pluginSlug ++ "_"))

/-- Model of `S3RepositoryImpl.validateBucketAccess`: empty bucket (falsy) is rejected
outright; otherwise the mapped+prefixed name must be in the allowed set. The
`.ok` value is the bucket name passed to the backing service. -/
def validateBucketAccess (r : S3Repo) (bucket : String) : Except S3Error String :=
  if bucket = "" then
    .error (.bucketAccessDenied "" (s3UnprefixedAllowed r))
  else
    let bucketName := prefixBucketName r bucket
    if bucketName ∈ r.allowedBuckets then .ok bucketName
    else .error (.bucketAccessDenied bucket (s3UnprefixedAllowed r))

/-- Arguments of a call delegated to the backing `S3Service`. -/
inductive S3Call where
  | upload (key body : String) (contentType : Option String) (bucket : String)
  | download (key bucket : String)
  | delete (key bucket : String)
  | list (pre : Option String) (bucket : String)
  | exists (key bucket : String)
  | presignedUrl (key : String) (expiresIn : Nat) (bucket : String)
  deriving DecidableEq, Repr

/-- Model of `S3RepositoryImpl.upload`. -/
def s3Upload (r : S3Repo) (key body : String) (contentType : Option String)
    (bucket : String) : Except S3Error S3Call :=
  (validateBucketAccess r bucket).map (fun bn => .upload key body contentType bn)

/-- Model of `S3RepositoryImpl.download`. -/
def s3Download (r : S3Repo) (key bucket : String) : Except S3Error S3Call :=
  (validateBucketAccess r bucket).map (fun bn => .download key bn)

/-- Model of `S3RepositoryImpl.delete`. -/
def s3Delete (r : S3Repo) (key bucket : String) : Except S3Error S3Call :=
  (validateBucketAccess r bucket).map (fun bn => .delete key bn)

/-- Model of `S3RepositoryImpl.list`. -/
def s3List (r : S3Repo) (pre : Option String) (bucket : String) :
    Except S3Error S3Call :=
  (validateBucketAccess r bucket).map (fun bn => .list pre bn)

/-- Model of `S3RepositoryImpl.exists`. -/
def s3Exists (r : S3Repo) (key bucket : String) : Except S3Error S3Call :=
  (validateBucketAccess r bucket).map (fun bn => .exists key bn)

/-- Model of `S3RepositoryImpl.getPresignedUrl`. -/
def s3GetPresignedUrl (r : S3Repo) (key : String) (expiresIn : Nat)
    (bucket : String) : Except S3Error S3Call :=
  (validateBucketAccess r bucket).map (fun bn => .presignedUrl key expiresIn bn)

/-- Model of `S3RepositoryImpl.getAllowedBuckets`: unprefixed names. -/
def getAllowedBuckets (r : S3Repo) : List String :=
  s3UnprefixedAllowed r

/-- The prefixed name the spec's words prescribe for C2: name map (identity if
absent), then unconditionally the `{P}_` prefix. Written from the spec, to be
compared with `prefixBucketName` from the source. -/
def specClaimPrefixedBucket (r : S3Repo) (bucket : String) : String :=
  r.pluginSlug ++ "_" ++ jsOr (mapGet r.nameMap bucket) bucket

/-! ## Database proxy (`DatabaseRepositoryImpl`)

The table patterns `/(from|join|update|into|table)\s+([a-z_][a-z0-9_]*)/gi` are
modelled by an explicit scanner over character lists with the exact JS
global-regex semantics: scan left to right, at each position try the pattern
(case-insensitive keyword, one or more whitespace characters, an identifier),
and on a match continue after the matched text. -/

/-- Characters matched by the regex class `\s` (ASCII part). -/
def jsWhitespace (c : Char) : Bool :=
  c = ' ' || c = '\t' || c = '\n' || c = '\r' || c = '\x0b' || c = '\x0c'

/-- Model of `[a-z_]` under the `i` flag: an ASCII letter or underscore. -/
def identStartChar (c : Char) : Bool :=
  ('a' ≤ c && c ≤ 'z') || ('A' ≤ c && c ≤ 'Z') || c = '_'

/-- Model of `[a-z0-9_]` under the `i` flag. -/
def identContChar (c : Char) : Bool :=
  identStartChar c || ('0' ≤ c && c ≤ '9')

/-- Case-insensitive check that `kw` (given in lowercase) starts the text. -/
def kwAtStart : List Char → List Char → Bool
  | [], _ => true
  | _ :: _, [] => false
  | k :: ks, c :: cs => k = c.toLower && kwAtStart ks cs

/-- Model of `true` when the regex class `[a-z_]` (with the `i` flag) matches the first
character of the text. -/
def headIsIdentStart (l : List Char) : Bool :=
  match l with
  | [] => false
  | c :: _ => identStartChar c

/-- Try the pattern `kw\s+([a-z_][a-z0-9_]*)` (flags `gi`) at the start of `s`.
On success return the matched text, the captured identifier (original case) and
the remainder of the input after the match. -/
def matchKeywordAt (kw s : List Char) : Option (List Char × List Char × List Char) :=
  let rest := s.drop kw.length
  let wsLen := (rest.takeWhile jsWhitespace).length
  let rest2 := rest.drop wsLen
  let ident := rest2.takeWhile identContChar
  if kwAtStart kw s && wsLen != 0 && headIsIdentStart rest2 then
    some (s.take (kw.length + wsLen + ident.length), ident, rest2.drop ident.length)
  else none

/-- One global pass of `pattern.exec` collecting the captured identifiers
(lowercased, as `validateTableAccess` does with `match[1].toLowerCase()`).
Structural recursion on a fuel equal to the input length: every step consumes
at least one character (a match always eats the non-empty whitespace run), so
the fuel-exhaustion branch is unreachable. -/
def scanCapturesF (kw : List Char) : Nat → List Char → List (List Char)
  | _, [] => []
  | 0, _ :: _ => []
  | fuel + 1, c :: cs =>
    match matchKeywordAt kw (c :: cs) with
    | some (_, ident, rem) => ident.map Char.toLower :: scanCapturesF kw fuel rem
    | none => scanCapturesF kw fuel cs

/-- Global scan of one table pattern over a text. -/
def scanCaptures (kw s : List Char) : List (List Char) :=
  scanCapturesF kw s.length s

/-- The five table patterns' keywords, in source order. -/
def tableKeywords : List (List Char) :=
  [['f','r','o','m'], ['j','o','i','n'], ['u','p','d','a','t','e'],
   ['i','n','t','o'], ['t','a','b','l','e']]

/-- Candidate names skipped by both the validator and the rewriter:
`pg_`-prefixed system tables and a fixed list of SQL keywords. -/
def skipTableName (lowerTable : List Char) : Bool :=
  (['p','g','_'].isPrefixOf lowerTable) ||
    (["select", "where", "group", "order", "having", "limit", "offset"].map
      String.data).contains lowerTable

/-- The fields of `DatabaseRepositoryImpl` (backing `DatabaseService` implicit). -/
structure DbRepo where
  allowedTables : List String
  pluginSlug : String
  nameMap : List (String × String)
  deriving DecidableEq, Repr

/-- ASCII lowercasing of a string through its character list. -/
def strLower (s : String) : String :=
  String.mk (s.data.map Char.toLower)

/-- Model of `DatabaseRepositoryImpl` constructor: the already-prefixed tables are
lowercased and stored as a `Set`. -/
def dbRepoNew (allowedTables : List String) (pluginSlug : String)
    (nameMap : Option (List (String × String))) : DbRepo :=
  { allowedTables := dedupFirst (allowedTables.map strLower)
    pluginSlug := pluginSlug
    nameMap := nameMap.getD [] }

/-- Model of `DatabaseRepositoryImpl.prefixTableName`: lowercase, apply the name map
(JS `this.nameMap.get(lowerTable) || lowerTable`), lowercase again, and prepend
`{slug}_` unless already present. -/
def prefixTableName (r : DbRepo) (tableName : String) : String :=
  let lowerTable := strLower tableName
  let mappedName := jsOr (mapGet r.nameMap lowerTable) lowerTable
  let mappedLower := strLower mappedName
  if strStarts mappedLower (r.pluginSlug ++ "_") then mappedLower
  else r.pluginSlug ++ "_" ++ mappedLower

/-- Model of `TableAccessDeniedError(tableName, allowedTables)` from `database.errors.ts`. -/
inductive DbError where
  | tableAccessDenied (tableName : String) (allowedTables : List String)
  deriving DecidableEq, Repr

/-- Unprefixed allowed tables for error messages and `getAllowedTables`. -/
def dbUnprefixedAllowed (r : DbRepo) : List String :=
  r.allowedTables.map (fun t => strRemoveFirst t (r.pluginSlug ++ "_"))

/-- Table names referenced by a SQL text: captures of all five patterns over the
lowercased text, deduplicated in insertion order (the JS `Set`), with the
skip-list applied as each capture is considered. -/
def referencedTables (querySql : String) : List String :=
  dedupFirst
    ((tableKeywords.map (fun kw =>
        (scanCaptures kw (strLower querySql).data).filter
          (fun t => !skipTableName t))).flatten.map String.mk)

/-- Model of `DatabaseRepositoryImpl.validateTableAccess`: the first referenced table
whose mapped+prefixed form is not allowed raises `TableAccessDeniedError`. -/
def validateTableAccess (r : DbRepo) (querySql : String) : Option DbError :=
  match (referencedTables querySql).find?
      (fun t => !(r.allowedTables.contains (prefixTableName r t))) with
  | some t => some (.tableAccessDenied t (dbUnprefixedAllowed r))
  | none => none

/-- One global replace pass of
`result.replace(pattern, (match, tableName) => ...)` for a single keyword:
skipped candidates keep the matched text, the rest have the first occurrence of
the captured identifier inside the matched text replaced by its prefixed form. -/
def replaceTablePassF (r : DbRepo) (kw : List Char) : Nat → List Char → List Char
  | _, [] => []
  | 0, rest => rest
  | fuel + 1, c :: cs =>
    match matchKeywordAt kw (c :: cs) with
    | some (m, ident, rem) =>
      let lowerTable := ident.map Char.toLower
      let replaced :=
        if skipTableName lowerTable then m
        else replaceFirstOcc m ident (prefixTableName r (String.mk lowerTable)).data
      replaced ++ replaceTablePassF r kw fuel rem
    | none => c :: replaceTablePassF r kw fuel cs

/-- Global replace of one table pattern over a text (fuel as in `scanCaptures`). -/
def replaceTablePass (r : DbRepo) (kw s : List Char) : List Char :=
  replaceTablePassF r kw s.length s

/-- Model of `DatabaseRepositoryImpl.prefixTablesInSql`: the five replace passes applied
in sequence, each over the previous result. -/
def prefixTablesInSql (r : DbRepo) (querySql : String) : String :=
  String.mk (tableKeywords.foldl (fun acc kw => replaceTablePass r kw acc)
    querySql.data)

/-- Model of `DatabaseRepositoryImpl.executeQuery`: validate, rewrite, delegate. The
`.ok` value is the `(sql, parameters)` pair passed to the backing service. -/
def executeQuery (r : DbRepo) (querySql : String) (parameters : List String) :
    Except DbError (String × List String) :=
  match validateTableAccess r querySql with
  | some e => .error e
  | none => .ok (prefixTablesInSql r querySql, parameters)

/-- Model of `DatabaseRepositoryImpl.executeCommand`: same gate and rewrite as
`executeQuery`. -/
def executeCommand (r : DbRepo) (querySql : String) (parameters : List String) :
    Except DbError (String × List String) :=
  match validateTableAccess r querySql with
  | some e => .error e
  | none => .ok (prefixTablesInSql r querySql, parameters)

/-- Model of `DatabaseRepositoryImpl.getAllowedTables`: unprefixed names. -/
def getAllowedTables (r : DbRepo) : List String :=
  dbUnprefixedAllowed r

/-! ## Naming validators (`naming-validation.ts`)

Each zod schema is modelled as a boolean predicate (the manager only observes
pass/throw); the rules are the schema's regexes, written out over characters. -/

/-- Model of `[a-z]`. -/
def isLowerAlpha (c : Char) : Bool := 'a' ≤ c && c ≤ 'z'

/-- Model of `[0-9]`. -/
def isDigit (c : Char) : Bool := '0' ≤ c && c ≤ '9'

/-- The text has two adjacent characters both satisfying `p`
(the `/X{2,}/` regexes). -/
def hasAdjacentPair (p : Char → Bool) : List Char → Bool
  | [] => false
  | [_] => false
  | a :: b :: rest => (p a && p b) || hasAdjacentPair p (b :: rest)

/-- Split a character list at every `'.'` (for the IPv4-shape test). -/
def splitDots : List Char → List (List Char)
  | [] => [[]]
  | c :: rest =>
    if c = '.' then [] :: splitDots rest
    else
      match splitDots rest with
      | [] => [[c]]
      | g :: gs => (c :: g) :: gs

/-- Model of `/^[0-9]{1,3}\.[0-9]{1,3}\.[0-9]{1,3}\.[0-9]{1,3}$/`: four dot-separated
groups of one to three digits. -/
def looksLikeIpAddress (s : List Char) : Bool :=
  let groups := splitDots s
  groups.length = 4 &&
    groups.all (fun g => 1 ≤ g.length && g.length ≤ 3 && g.all isDigit)

/-- Model of `pluginNameSchema`: 1–63 chars, `[a-z0-9_-]` only, starts `[a-z0-9]`, does
not end in `-`/`_`, no two consecutive `-`/`_`. -/
def pluginNameOk (name : String) : Bool :=
  let cs := name.data
  1 ≤ cs.length && cs.length ≤ 63 &&
    (match cs.head? with
     | some c => isLowerAlpha c || isDigit c
     | none => false) &&
    cs.all (fun c => isLowerAlpha c || isDigit c || c = '-' || c = '_') &&
    (match cs.getLast? with
     | some c => !(c = '-' || c = '_')
     | none => true) &&
    !hasAdjacentPair (fun c => c = '-' || c = '_') cs

/-- Model of `tableNameSchema`: 1–63 chars, `[a-z0-9_]` only, starts `[a-z_]`, does not
end in `_`, no two consecutive `_`. -/
def tableNameOk (name : String) : Bool :=
  let cs := name.data
  1 ≤ cs.length && cs.length ≤ 63 &&
    (match cs.head? with
     | some c => isLowerAlpha c || c = '_'
     | none => false) &&
    cs.all (fun c => isLowerAlpha c || isDigit c || c = '_') &&
    (match cs.getLast? with
     | some c => !(c = '_')
     | none => true) &&
    !hasAdjacentPair (fun c => c = '_') cs

/-- Model of `topicNameSchema`: 1–249 chars, `[a-z0-9._-]` only, does not end in `.`,
no two consecutive `.`. -/
def topicNameOk (name : String) : Bool :=
  let cs := name.data
  1 ≤ cs.length && cs.length ≤ 249 &&
    cs.all (fun c => isLowerAlpha c || isDigit c || c = '.' || c = '-' || c = '_') &&
    (match cs.getLast? with
     | some c => !(c = '.')
     | none => true) &&
    !hasAdjacentPair (fun c => c = '.') cs

/-- Model of `bucketNameSchema`: 3–63 chars, `[a-z0-9.-]` only, starts `[a-z0-9]`, does
not end in `-`/`.`, no two consecutive `.`, not shaped like an IPv4 address. -/
def bucketNameOk (name : String) : Bool :=
  let cs := name.data
  3 ≤ cs.length && cs.length ≤ 63 &&
    (match cs.head? with
     | some c => isLowerAlpha c || isDigit c
     | none => false) &&
    cs.all (fun c => isLowerAlpha c || isDigit c || c = '.' || c = '-') &&
    (match cs.getLast? with
     | some c => !(c = '-' || c = '.')
     | none => true) &&
    !hasAdjacentPair (fun c => c = '.') cs &&
    !looksLikeIpAddress cs

/-- Worker for the duplicate check of `validateResourceNames`. -/
def dupFree : List String → Bool
  | [] => true
  | x :: rest => !rest.contains x && dupFree rest

/-- Model of `validateResourceNames`: every name passes the validator and the list has
no duplicates. -/
def resourceNamesOk (names : List String) (ok : String → Bool) : Bool :=
  names.all ok && dupFree names

/-! ## Error taxonomy (`plugin-errors.ts`), data model (`types/plugin.ts`) -/

/-- The typed errors of `plugin-errors.ts` that the manager throws (message
strings are not modelled; the carried data is). -/
inductive PluginErr where
  | invalidPluginFormat (pluginPath : String)
  | invalidNamingConvention (pluginName nameType : String)
  | dependencyNotFound (pluginName dependencyName : String)
  | selfDependency (pluginName : String)
  | circularDependency (pluginName : String) (dependencyChain : List String)
  | pluginLoadError (pluginPath : String)
  | pluginUnloadError (pluginName : String)
  | pluginNotFound (pluginName : String)
  | dependencyResolution (unresolvedPlugins : List String)
  deriving DecidableEq, Repr

/-- Model of `PluginMetadata` from `types/plugin.ts` (absent optional fields are `none`). -/
structure PluginMetadata where
  name : String
  version : String
  description : Option String := none
  dependencies : Option (List String) := none
  allowedTables : Option (List String) := none
  allowedTopics : Option (List String) := none
  allowedBuckets : Option (List String) := none
  deriving DecidableEq, Repr

/-- A `Plugin` value: metadata plus the `initialize`/`cleanup` hooks. A hook is
modelled by presence and outcome: `none` = hook absent, `some true` = present
and returns normally, `some false` = present and throws. -/
structure PluginDef where
  metadata : PluginMetadata
  initializeHook : Option Bool := none
  cleanupHook : Option Bool := none
  deriving DecidableEq, Repr

/-- Model of `PluginResourceOverrides` from `plugin-manager.service.ts`. -/
structure PluginResourceOverrides where
  allowedTables : Option (List String) := none
  allowedTopics : Option (List String) := none
  allowedBuckets : Option (List String) := none
  tableNameMap : Option (List (String × String)) := none
  topicNameMap : Option (List (String × String)) := none
  bucketNameMap : Option (List (String × String)) := none
  deriving DecidableEq, Repr

/-- Constructor arguments of `KafkaRepositoryImpl` as the manager passes them
(no claim depends on the messaging proxy's operations). -/
structure KafkaRepo where
  allowedTopics : List String
  pluginSlug : String
  nameMap : List (String × String)
  deriving DecidableEq, Repr

/-- A listener registered on the shared `pluginEventBus`. `id` identifies the
wrapped-listener closure (each `on`/`once` creates a fresh one), `fnId` the
plugin-supplied listener inside it, `once` whether `EventEmitter.once`
registered it. -/
structure BusEntry where
  id : Nat
  event : String
  owner : String
  fnId : Nat
  once : Bool
  deriving DecidableEq, Repr

/-- Per-plugin resource name maps
(`pluginResourceNameMaps` entry: tables/topics/buckets). -/
structure ResourceNameMaps where
  tables : List (String × String)
  topics : List (String × String)
  buckets : List (String × String)
  deriving DecidableEq, Repr

/-- Which optional backing services the manager was constructed with. -/
structure ServicesCfg where
  hasS3 : Bool
  hasDatabase : Bool
  hasKafka : Bool
  deriving DecidableEq, Repr

/-- The data captured by a `PluginContext` closure at creation time, plus the
repository proxies bundled into it. -/
structure PluginContextData where
  pluginName : String
  dependencies : List String
  dependencyPlugins : List (String × PluginDef)
  s3 : Option S3Repo
  database : Option DbRepo
  kafka : Option KafkaRepo
  deriving DecidableEq, Repr

/-- The mutable fields of `PluginManagerService`. `nextListenerId` is the
supply of fresh identities for wrapped-listener closures. -/
structure PMState where
  cfg : ServicesCfg
  plugins : List (String × PluginDef)
  pluginPaths : List (String × String)
  busListeners : List BusEntry
  pluginListeners : List (String × List (String × List Nat))
  pluginDependencies : List (String × List String)
  pluginContexts : List (String × PluginContextData)
  invalidatedPlugins : List String
  pluginResourceOverrides : List (String × PluginResourceOverrides)
  pluginResourceNameMaps : List (String × ResourceNameMaps)
  nextListenerId : Nat
  deriving DecidableEq, Repr

/-- A fresh manager (every registry empty). -/
def pmInit (cfg : ServicesCfg) : PMState :=
  { cfg := cfg, plugins := [], pluginPaths := [], busListeners := []
    pluginListeners := [], pluginDependencies := [], pluginContexts := []
    invalidatedPlugins := [], pluginResourceOverrides := []
    pluginResourceNameMaps := [], nextListenerId := 0 }

/-! ## Shared event bus and context methods -/

/-- Errors thrown by context methods: the `checkValid` invalidity error and
`UndeclaredDependencyError`. -/
inductive CtxError where
  | contextInvalid (pluginName : String)
  | undeclaredDependency (pluginName requestedDependency : String)
  deriving DecidableEq, Repr

/-- Model of `checkValid` from `createPluginContext`: throws when the owning plugin is
in `invalidatedPlugins`. -/
def checkValid (s : PMState) (pluginName : String) : Option CtxError :=
  if pluginName ∈ s.invalidatedPlugins then some (.contextInvalid pluginName)
  else none

/-- Model of `EventEmitter.emit` on the shared bus: deliver to every listener of the
event in registration order (the wrapper invokes the plugin-supplied listener
only when the payload's source is truthy and differs from the owner), and
remove the fired `once` wrappers. Returns the new bus and the invoked
plugin-supplied listeners. -/
def busEmit (bus : List BusEntry) (event source : String) :
    List BusEntry × List Nat :=
  (bus.filter (fun e => !(e.event = event && e.once)),
   (bus.filter (fun e => e.event = event)).filterMap
     (fun e => if source ≠ "" && source ≠ e.owner then some e.fnId else none))

/-- Model of `EventEmitter.off(event, listener)`: remove a single instance of the
wrapped listener (identities are unique, so which instance is immaterial). -/
def busOff (bus : List BusEntry) (event : String) (wid : Nat) : List BusEntry :=
  match bus with
  | [] => []
  | e :: rest =>
    if e.event = event && e.id = wid then rest else e :: busOff rest event wid

/-- Context `eventBus.emit`: check validity, then publish tagged with the
plugin's identity. Also returns the plugin-supplied listeners invoked by the
synchronous delivery. -/
def ctxEmit (s : PMState) (pluginName event : String) :
    PMState × Option CtxError × List Nat :=
  match checkValid s pluginName with
  | some e => (s, some e, [])
  | none =>
    let r := busEmit s.busListeners event pluginName
    ({ s with busListeners := r.1 }, none, r.2)

/-- Context `eventBus.on`: check validity, wrap the listener (fresh identity),
register it on the shared bus, and record it in the per-plugin per-event
listener registry. -/
def ctxOn (s : PMState) (pluginName event : String) (fnId : Nat) :
    PMState × Option CtxError :=
  match checkValid s pluginName with
  | some e => (s, some e)
  | none =>
    let wid := s.nextListenerId
    let pl := (mapGet s.pluginListeners pluginName).getD []
    let evSet := (mapGet pl event).getD []
    ({ s with
        busListeners :=
          s.busListeners ++ [⟨wid, event, pluginName, fnId, false⟩]
        pluginListeners :=
          mapSet s.pluginListeners pluginName (mapSet pl event (evSet ++ [wid]))
        nextListenerId := wid + 1 }, none)

/-- Context `eventBus.once`: check validity and register a `once` wrapper on
the shared bus. The source records nothing in the listener registry here. -/
def ctxOnce (s : PMState) (pluginName event : String) (fnId : Nat) :
    PMState × Option CtxError :=
  match checkValid s pluginName with
  | some e => (s, some e)
  | none =>
    ({ s with
        busListeners :=
          s.busListeners ++ [⟨s.nextListenerId, event, pluginName, fnId, true⟩]
        nextListenerId := s.nextListenerId + 1 }, none)

/-- Context `eventBus.off(event, listener)`: check validity, then remove every
listener recorded in the plugin's registry for that event from the shared bus
and clear the registry set. The supplied listener argument is ignored by the
source (hence unnamed here). -/
def ctxOff (s : PMState) (pluginName event : String) :
    PMState × Option CtxError :=
  match checkValid s pluginName with
  | some e => (s, some e)
  | none =>
    match mapGet s.pluginListeners pluginName with
    | none => (s, none)
    | some pl =>
      match mapGet pl event with
      | none => (s, none)
      | some widSet =>
        ({ s with
            busListeners := widSet.foldl (fun b wid => busOff b event wid)
              s.busListeners
            pluginListeners :=
              mapSet s.pluginListeners pluginName (mapSet pl event []) }, none)

/-- Context `getDependency`: check validity, reject names outside the declared
dependency list with `UndeclaredDependencyError`, else return the dependency
captured at context creation (if any). -/
def ctxGetDependency (s : PMState) (ctx : PluginContextData) (name : String) :
    Except CtxError (Option PluginDef) :=
  match checkValid s ctx.pluginName with
  | some e => .error e
  | none =>
    if name ∈ ctx.dependencies then .ok (mapGet ctx.dependencyPlugins name)
    else .error (.undeclaredDependency ctx.pluginName name)

/-- Context `getDependencies`: check validity, then return the captured map. -/
def ctxGetDependencies (s : PMState) (ctx : PluginContextData) :
    Except CtxError (List (String × PluginDef)) :=
  match checkValid s ctx.pluginName with
  | some e => .error e
  | none => .ok ctx.dependencyPlugins

/-! ## Dependency validation -/

/-- The loop of `validateDependencies`: for each declared dependency, first the
loaded check (`DependencyNotFoundError`), then the self check
(`SelfDependencyError`) — in that source order. -/
def validateDependenciesLoop (plugins : List (String × PluginDef))
    (pluginName : String) : List String → Option PluginErr
  | [] => none
  | depName :: rest =>
    if !mapHas plugins depName then some (.dependencyNotFound pluginName depName)
    else if depName = pluginName then some (.selfDependency pluginName)
    else validateDependenciesLoop plugins pluginName rest

/-- Model of `checkCircularDependencies`, structurally recursive on a fuel that bounds
the number of recursive calls (the JS recursion terminates because every
descent adds a fresh graph key to the visited path; the fuel below is a crude
upper bound on the call count, so the exhaustion branch is unreachable). An
error carries `(pluginName, Array.from(visited))` as
`CircularDependencyError` does. -/
def checkCircularF (graph : List (String × List String)) (pluginName : String) :
    Nat → List String → List String → Option (String × List String)
  | _, [], _ => none
  | 0, _ :: _, _ => none
  | fuel + 1, depName :: rest, visited =>
    if depName ∈ visited then some (pluginName, visited)
    else
      match mapGet graph depName with
      | some depDeps =>
        if depDeps.length > 0 then
          match checkCircularF graph pluginName fuel depDeps
              (visited ++ [depName]) with
          | some e => some e
          | none => checkCircularF graph pluginName fuel rest visited
        else checkCircularF graph pluginName fuel rest visited
      | none => checkCircularF graph pluginName fuel rest visited

/-- Fuel for `checkCircularF`: the total call count is below
`(Σ deps-list lengths + |deps| + 2) ^ (|graph| + 2)` because the nesting depth
is at most the number of graph keys and the branching at each level is at most
the sum of the dependency-list lengths. -/
def circFuel (graph : List (String × List String)) (deps : List String) : Nat :=
  (graph.foldl (fun n p => n + p.2.length) 0 + deps.length + 2) ^
    (graph.length + 2)

/-- Model of `checkCircularDependencies(pluginName, dependencies, visited)` over the
recorded dependency graph. -/
def checkCircularDependencies (graph : List (String × List String))
    (pluginName : String) (deps visited : List String) :
    Option (String × List String) :=
  checkCircularF graph pluginName (circFuel graph deps) deps visited

/-- Model of `validateDependencies(plugin)`: the per-dependency loop, then the circular
walk seeded with `new Set([pluginName])`. -/
def validateDependencies (s : PMState) (plugin : PluginDef) : Option PluginErr :=
  let dependencies := plugin.metadata.dependencies.getD []
  let pluginName := plugin.metadata.name
  match validateDependenciesLoop s.plugins pluginName dependencies with
  | some e => some e
  | none =>
    match checkCircularDependencies s.pluginDependencies pluginName
        dependencies [pluginName] with
    | some r => some (.circularDependency r.1 r.2)
    | none => none

/-! ## Naming-convention validation (`validateNamingConventions`) -/

/-- Validate every map entry: both the original and the mapped name must pass
the per-resource validator. -/
def nameMapEntriesOk (m : List (String × String)) (ok : String → Bool) : Bool :=
  m.all (fun p => ok p.1 && ok p.2)

/-- Model of `validateNamingConventions(metadata, resourceOverrides)`: plugin name,
dependency names, effective resource lists (override list when the override
object provides one, else the metadata list), then the three name maps — in
source order, with the source's `nameType` tag on each failure. -/
def validateNamingConventions (metadata : PluginMetadata)
    (resourceOverrides : Option PluginResourceOverrides) : Option PluginErr :=
  let pluginName := metadata.name
  if !pluginNameOk pluginName then
    some (.invalidNamingConvention pluginName "plugin name")
  else if !(metadata.dependencies.getD []).all pluginNameOk then
    some (.invalidNamingConvention pluginName "dependency name")
  else
    let allowedTables :=
      (resourceOverrides.bind (·.allowedTables)).getD
        (metadata.allowedTables.getD [])
    let allowedTopics :=
      (resourceOverrides.bind (·.allowedTopics)).getD
        (metadata.allowedTopics.getD [])
    let allowedBuckets :=
      (resourceOverrides.bind (·.allowedBuckets)).getD
        (metadata.allowedBuckets.getD [])
    if !resourceNamesOk allowedTables tableNameOk then
      some (.invalidNamingConvention pluginName "table")
    else if !resourceNamesOk allowedTopics topicNameOk then
      some (.invalidNamingConvention pluginName "topic")
    else if !resourceNamesOk allowedBuckets bucketNameOk then
      some (.invalidNamingConvention pluginName "bucket")
    else if !nameMapEntriesOk ((resourceOverrides.bind (·.tableNameMap)).getD [])
        tableNameOk then
      some (.invalidNamingConvention pluginName "table name mapping")
    else if !nameMapEntriesOk ((resourceOverrides.bind (·.topicNameMap)).getD [])
        topicNameOk then
      some (.invalidNamingConvention pluginName "topic name mapping")
    else if !nameMapEntriesOk ((resourceOverrides.bind (·.bucketNameMap)).getD [])
        bucketNameOk then
      some (.invalidNamingConvention pluginName "bucket name mapping")
    else none

/-! ## Context creation, load, unload -/

/-- Model of `prefixResources(resources, pluginSlug)`. -/
def prefixResources (resources : List String) (pluginSlug : String) :
    List String :=
  resources.map (fun resource => pluginSlug ++ "_" ++ resource)

/-- Model of `applyNameMappings(resources, nameMap)`:
`nameMap[resource] || resource` when a map is provided. -/
def applyNameMappings (resources : List String)
    (nameMap : Option (List (String × String))) : List String :=
  match nameMap with
  | none => resources
  | some m => resources.map (fun resource => jsOr (mapGet m resource) resource)

/-- Build one of the stored name maps: `new Map()` filled from the override's
record entries, keys lowercased for tables when `lowerKeys` is set. -/
def buildNameMap (entries : Option (List (String × String))) (lowerKeys : Bool) :
    List (String × String) :=
  match entries with
  | none => []
  | some m =>
    m.foldl (fun acc p =>
      mapSet acc (if lowerKeys then strLower p.1 else p.1) p.2) []

/-- Model of `createPluginContext(pluginName, dependencies, metadata, resourceOverrides)`:
compute effective resource lists (argument overrides, else stored overrides),
apply name maps, store the maps, prefix, instantiate the configured repository
proxies, capture the dependency plugins, and record the context. -/
def createPluginContext (s : PMState) (pluginName : String)
    (dependencies : List String) (metadata : PluginMetadata)
    (resourceOverrides : Option PluginResourceOverrides) :
    PMState × PluginContextData :=
  let overrides :=
    match resourceOverrides with
    | some ov => some ov
    | none => mapGet s.pluginResourceOverrides pluginName
  let rawTables :=
    (overrides.bind (·.allowedTables)).getD (metadata.allowedTables.getD [])
  let rawTopics :=
    (overrides.bind (·.allowedTopics)).getD (metadata.allowedTopics.getD [])
  let rawBuckets :=
    (overrides.bind (·.allowedBuckets)).getD (metadata.allowedBuckets.getD [])
  let mappedTables := applyNameMappings rawTables (overrides.bind (·.tableNameMap))
  let mappedTopics := applyNameMappings rawTopics (overrides.bind (·.topicNameMap))
  let mappedBuckets :=
    applyNameMappings rawBuckets (overrides.bind (·.bucketNameMap))
  let tableMap := buildNameMap (overrides.bind (·.tableNameMap)) true
  let topicMap := buildNameMap (overrides.bind (·.topicNameMap)) false
  let bucketMap := buildNameMap (overrides.bind (·.bucketNameMap)) false
  let allowedTables := prefixResources mappedTables pluginName
  let allowedTopics := prefixResources mappedTopics pluginName
  let allowedBuckets := prefixResources mappedBuckets pluginName
  let ctx : PluginContextData :=
    { pluginName := pluginName
      dependencies := dependencies
      dependencyPlugins :=
        dependencies.foldl (fun acc depName =>
          match mapGet s.plugins depName with
          | some p => mapSet acc depName p
          | none => acc) []
      s3 := if s.cfg.hasS3 then
          some (s3RepoNew allowedBuckets pluginName (some bucketMap)) else none
      database := if s.cfg.hasDatabase then
          some (dbRepoNew allowedTables pluginName (some tableMap)) else none
      kafka := if s.cfg.hasKafka then
          some ⟨allowedTopics, pluginName, topicMap⟩ else none }
  ({ s with
      pluginResourceNameMaps := mapSet s.pluginResourceNameMaps pluginName
        ⟨tableMap, topicMap, bucketMap⟩
      pluginContexts := mapSet s.pluginContexts pluginName ctx }, ctx)

/-- Teardown of a plugin's bus registrations during unload: remove every
recorded wrapped listener of every event, then (caller) delete the registry
entry. -/
def removeBusListeners (bus : List BusEntry)
    (pl : List (String × List Nat)) : List BusEntry :=
  pl.foldl (fun b p => p.2.foldl (fun b2 wid => busOff b2 p.1 wid) b) bus

/-- Model of `unloadPlugin(name)`: no-op when absent; otherwise mark invalidated, run
`cleanup` (a throw aborts with `PluginUnloadError`, keeping the mutations made
so far), remove the recorded bus listeners and every registry entry, and clear
the invalidation mark. Resource overrides are deliberately kept. -/
def unloadPlugin (s : PMState) (name : String) : PMState × Option PluginErr :=
  match mapGet s.plugins name with
  | none => (s, none)
  | some plugin =>
    let s1 := { s with invalidatedPlugins := setAdd s.invalidatedPlugins name }
    if plugin.cleanupHook = some false then
      (s1, some (.pluginUnloadError name))
    else
      let s2 :=
        match mapGet s1.pluginListeners name with
        | some pl =>
          { s1 with
              busListeners := removeBusListeners s1.busListeners pl
              pluginListeners := mapDelete s1.pluginListeners name }
        | none => s1
      ({ s2 with
          pluginDependencies := mapDelete s2.pluginDependencies name
          pluginContexts := mapDelete s2.pluginContexts name
          plugins := mapDelete s2.plugins name
          pluginPaths := mapDelete s2.pluginPaths name
          invalidatedPlugins := s2.invalidatedPlugins.filter (· ≠ name) },
       none)

/-- Model of `loadPlugin(pluginPath, resourceOverrides)`. The dynamic `import` is an
external effect, passed in as `moduleResult`: `.error ()` = the import threw,
`.ok none` = the module has no `default`/`plugin` export (or no metadata),
`.ok (some plugin)` = the resolved plugin value. The state paired with an
error carries every mutation made before the throw, as in the source. -/
def loadPlugin (s : PMState) (pluginPath : String)
    (moduleResult : Except Unit (Option PluginDef))
    (resourceOverrides : Option PluginResourceOverrides) :
    PMState × Except PluginErr PluginDef :=
  match moduleResult with
  | .error _ => (s, .error (.pluginLoadError pluginPath))
  | .ok none => (s, .error (.invalidPluginFormat pluginPath))
  | .ok (some plugin) =>
    let name := plugin.metadata.name
    let dependencies := plugin.metadata.dependencies.getD []
    let unloadStep :=
      if mapHas s.plugins name then unloadPlugin s name else (s, none)
    match unloadStep.2 with
    | some _ =>
      -- a cleanup failure of the prior instance is not a validation error:
      -- the catch block wraps it in PluginLoadError
      (unloadStep.1, .error (.pluginLoadError pluginPath))
    | none =>
      let s1 := unloadStep.1
      match validateNamingConventions plugin.metadata resourceOverrides with
      | some e => (s1, .error e)
      | none =>
        match validateDependencies s1 plugin with
        | some e => (s1, .error e)
        | none =>
          let s2 := { s1 with
            pluginDependencies :=
              mapSet s1.pluginDependencies name (dedupFirst dependencies) }
          let s3 :=
            match resourceOverrides with
            | some ov => { s2 with
                pluginResourceOverrides :=
                  mapSet s2.pluginResourceOverrides name ov }
            | none => s2
          let s4 := (createPluginContext s3 name dependencies plugin.metadata
            resourceOverrides).1
          if plugin.initializeHook = some false then
            (s4, .error (.pluginLoadError pluginPath))
          else
            ({ s4 with
                plugins := mapSet s4.plugins name plugin
                pluginPaths := mapSet s4.pluginPaths name pluginPath },
             .ok plugin)

/-! ## Directory loading (`loadPluginsFromDirectory`)

File discovery and module parsing are I/O; the model starts from the parsed
descriptor list `(name, dependencies)` and a success oracle `loadOk` for the
individual `loadPlugin` calls (a failed call is logged and the descriptor
dropped from the remaining set, exactly as the source's catch does). -/

/-- One pass of the fixed-point loop: visit the remaining descriptors in
order; a descriptor whose dependencies are all loaded is attempted (loaded or
dropped), the rest are kept. Returns (new remaining, loaded set, loadedAny). -/
def dirPass (loadOk : String → Bool) :
    List (String × List String) → List String →
    List (String × List String) × List String × Bool
  | [], loaded => ([], loaded, false)
  | (name, deps) :: rest, loaded =>
    if deps.all (· ∈ loaded) then
      if loadOk name then
        let r := dirPass loadOk rest (setAdd loaded name)
        (r.1, r.2.1, true)
      else dirPass loadOk rest loaded
    else
      let r := dirPass loadOk rest loaded
      ((name, deps) :: r.1, r.2.1, r.2.2)

/-- The `while (remainingPlugins.size > 0)` loop. Fuel bounds the number of
passes; every continuing pass has loaded at least one descriptor, so passes
are at most the descriptor count and the exhaustion branch is unreachable
from `loadPluginsFromDirectory`. -/
def dirLoopF (loadOk : String → Bool) :
    Nat → List (String × List String) → List String →
    Except (List String) (List String)
  | _, [], loaded => .ok loaded
  | 0, _ :: _, _ => .ok []
  | fuel + 1, remaining, loaded =>
    let r := dirPass loadOk remaining loaded
    if r.2.2 then
      match r.1 with
      | [] => .ok r.2.1
      | a :: rest => dirLoopF loadOk fuel (a :: rest) r.2.1
    else
      match r.1 with
      | [] => .ok r.2.1
      | a :: rest => .error ((a :: rest).map Prod.fst)

/-- Model of the body of `loadPluginsFromDirectory` inside the enclosing try
(lines 591-620), from the parsed descriptors: build the `remainingPlugins`
map (later duplicates overwrite in place), then run the fixed-point loop from
an empty loaded set. `.error names` is the `DependencyResolutionError(names)`
thrown at line 618 — which the enclosing catch then intercepts; the complete
function including that catch is `loadPluginsFromDirectory` below. `.ok
loaded` lists the successfully loaded plugin names in load order. -/
def loadPluginsFromDirectoryModel (loadOk : String → Bool)
    (descriptors : List (String × List String)) :
    Except (List String) (List String) :=
  let remaining := descriptors.foldl (fun m p => mapSet m p.1 p.2) []
  dirLoopF loadOk remaining.length remaining []

/-- Model of `Array.prototype.join(sep)`. -/
def joinSep (sep : String) : List String → String
  | [] => ""
  | [x] => x
  | x :: y :: rest => x ++ sep ++ joinSep sep (y :: rest)

/-- Model of the message built by `DependencyResolutionError`
(plugin-errors.ts: `Cannot resolve plugin dependencies. Remaining plugins:
{joined}. Check for missing or circular dependencies.`). -/
def dependencyResolutionMessage (unresolvedPlugins : List String) : String :=
  "Cannot resolve plugin dependencies. Remaining plugins: " ++
    joinSep ", " unresolvedPlugins ++
    ". Check for missing or circular dependencies."

/-- Model of `loadPluginsFromDirectory` at its caller-visible boundary: the
whole body runs inside a try whose catch (lines 621-624) re-throws every
escaping error as a plain `Error` whose message embeds the original error's
message (`Failed to load plugins from directory: ...`). The
`DependencyResolutionError` of the fixed-point loop therefore never reaches
the caller as a typed error — its `unresolvedPlugins` data is dropped and
only its message text survives inside the generic wrapper, modelled here by
`.error` carrying the plain message string. -/
def loadPluginsFromDirectory (loadOk : String → Bool)
    (descriptors : List (String × List String)) :
    Except String (List String) :=
  match loadPluginsFromDirectoryModel loadOk descriptors with
  | .ok loaded => .ok loaded
  | .error names =>
    .error ("Failed to load plugins from directory: " ++
      dependencyResolutionMessage names)

/-! ## Derived notions used by the claims -/

/-- The five error classes rethrown unchanged by `loadPlugin`'s catch block
(everything else is wrapped in `PluginLoadError`). -/
def isValidationErr : PluginErr → Bool
  | .dependencyNotFound .. => true
  | .selfDependency .. => true
  | .circularDependency .. => true
  | .invalidPluginFormat .. => true
  | .invalidNamingConvention .. => true
  | _ => false

/-- The chain printed by `CircularDependencyError`:
`[...dependencyChain, pluginName]`. -/
def reportedChain (pluginName : String) (dependencyChain : List String) :
    List String :=
  dependencyChain ++ [pluginName]

/-- Model of `extOrdered depsOf loaded order`: walking `order` from the left, every
plugin's declared dependencies are already inside the accumulated loaded set —
i.e. every plugin is loaded strictly after all of its dependencies. -/
def extOrdered (depsOf : String → List String) :
    List String → List String → Prop
  | _, [] => True
  | loaded, n :: rest =>
    (∀ d ∈ depsOf n, d ∈ loaded) ∧ extOrdered depsOf (loaded ++ [n]) rest

/-! ## Concrete scenarios referenced by the claim theorems -/

/-- A manager with no backing services configured. -/
def cfg0 : ServicesCfg := ⟨false, false, false⟩

/-- A plugin `p` with no dependencies and no hooks. -/
def pdP : PluginDef := { metadata := { name := "p", version := "1" } }

/-- The manager state after `loadPlugin` accepted `pdP`. -/
def sP : PMState := (loadPlugin (pmInit cfg0) "path-p" (.ok (some pdP)) none).1

/-- The context `loadPlugin` created for `p` (recorded in `pluginContexts`). -/
def ctxP : PluginContextData :=
  (mapGet sP.pluginContexts "p").getD ⟨"p", [], [], none, none, none⟩

/-- A plugin `p` whose `cleanup` hook throws. -/
def pdPBadCleanup : PluginDef :=
  { metadata := { name := "p", version := "1" }, cleanupHook := some false }

/-- State after loading `pdPBadCleanup`. -/
def sPBadCleanup : PMState :=
  (loadPlugin (pmInit cfg0) "path-p" (.ok (some pdPBadCleanup)) none).1

/-- Model of `sP` after `p` additionally registered a `once` listener (identity 5) for
event `evt` through its context. -/
def sPOnce : PMState := (ctxOnce sP "p" "evt" 5).1

/-- Model of `sP` after `p` additionally registered an `on` listener (identity 5) for
event `evt` through its context. -/
def sPOn : PMState := (ctxOn sP "p" "evt" 5).1

/-- The S3 proxy the manager builds for a plugin `p` declaring bucket `data`
(so the allowed set is `{p_data}`) with no name map. -/
def s3RepoP : S3Repo := s3RepoNew ["p_data"] "p" (some [])

/-- Metadata of the C5 scenario plugin `p`. -/
def c5meta : PluginMetadata := { name := "p", version := "1" }

/-- The C5 override: `{ allowedTables: ["users"], tableNameMap: { users: "accounts" } }`. -/
def c5ov : PluginResourceOverrides :=
  { allowedTables := some ["users"], tableNameMap := some [("users", "accounts")] }

/-- The context built for the C5 scenario (database service configured). -/
def c5ctx : PluginContextData :=
  (createPluginContext (pmInit ⟨false, true, false⟩) "p" [] c5meta (some c5ov)).2

/-- The database proxy of the C5 scenario. -/
def c5db : DbRepo := c5ctx.database.getD (dbRepoNew [] "p" none)

/-- A plugin `a` that declares itself as a dependency. -/
def pdSelf : PluginDef :=
  { metadata := { name := "a", version := "1", dependencies := some ["a"] } }

/-- A plugin `f` whose `initialize` hook throws. -/
def pdBadInit : PluginDef :=
  { metadata := { name := "f", version := "1" }, initializeHook := some false }

/-- A loaded plugin `b` (for the circular-dependency scenario). -/
def pdB : PluginDef := { metadata := { name := "b", version := "1" } }

/-- A plugin `a` depending on `b`. -/
def pdAdepB : PluginDef :=
  { metadata := { name := "a", version := "1", dependencies := some ["b"] } }

/-- A state where `b` is loaded and its recorded dependency set is `{a}` (as
after `a` was loaded, `b` was loaded depending on `a`, and `a` was unloaded —
recorded edges of `b` survive). -/
def sCyc : PMState :=
  { pmInit cfg0 with
      plugins := [("b", pdB)]
      pluginDependencies := [("b", ["a"])] }

/-- A state with a plugin `x` loaded, and a context for `p` declaring no
dependencies (for the undeclared-dependency scenario). -/
def sX : PMState :=
  { pmInit cfg0 with plugins := [("x", pdB)] }

/-- A context of a plugin `p` with an empty declared dependency list. -/
def ctxNoDeps : PluginContextData := ⟨"p", [], [], none, none, none⟩

/-- Dependency function of the C9 witness scenario. -/
def c9depsOf (n : String) : List String :=
  if n = "b" then ["a"] else []

/-! ## Basic map lemmas -/

theorem mapGet_mapSet_self (m : List (String × α)) (k : String) (v : α) :
    mapGet (mapSet m k v) k = some v := by
  induction m with
  | nil => simp [mapSet, mapGet]
  | cons p rest ih =>
    by_cases h : p.1 = k
    · simp [mapSet, mapGet, h]
    · simp [mapSet, mapGet, h, ih]

theorem mapGet_eq_none_of_not_mem_keys (m : List (String × α)) (k : String)
    (h : k ∉ m.map Prod.fst) : mapGet m k = none := by
  induction m with
  | nil => rfl
  | cons p rest ih =>
    simp only [List.map_cons, List.mem_cons, not_or] at h
    have hne : ¬ p.1 = k := fun hh => h.1 hh.symm
    simp [mapGet, hne, ih h.2]

theorem mapDelete_keys_subset (m : List (String × α)) (k : String) :
    ∀ x ∈ (mapDelete m k).map Prod.fst, x ∈ m.map Prod.fst := by
  induction m with
  | nil => simp [mapDelete]
  | cons p rest ih =>
    intro x hx
    by_cases h : p.1 = k
    · simp only [mapDelete, h, if_true] at hx
      simp [hx]
    · simp only [mapDelete, h, if_false, List.map_cons, List.mem_cons] at hx
      rcases hx with hx | hx
      · simp [hx]
      · simp [ih x hx]

theorem mapGet_mapDelete_self (m : List (String × α)) (k : String)
    (hnodup : (m.map Prod.fst).Nodup) : mapGet (mapDelete m k) k = none := by
  induction m with
  | nil => rfl
  | cons p rest ih =>
    simp only [List.map_cons, List.nodup_cons] at hnodup
    by_cases h : p.1 = k
    · simp only [mapDelete, h, if_true]
      exact mapGet_eq_none_of_not_mem_keys rest k (h ▸ hnodup.1)
    · simp [mapDelete, mapGet, h, ih hnodup.2]

/-! ## Claim C1 — context invalidity after unload -/

/-- C1: the claim says every method of a context captured before unload fails
permanently once `unloadPlugin` begins, including after it completes. The code
removes the plugin from `invalidatedPlugins` at the end of a successful
unload, so afterwards `checkValid` passes again and the stale context's
methods silently succeed; only while the unload is still in progress (here
kept open by a throwing cleanup hook) do they fail. -/
theorem stale_context_usable_after_unload_completes :
    (unloadPlugin sP "p").2 = none ∧
    "p" ∉ (unloadPlugin sP "p").1.invalidatedPlugins ∧
    (ctxEmit (unloadPlugin sP "p").1 "p" "evt").2.1 = none ∧
    (ctxOn (unloadPlugin sP "p").1 "p" "evt" 9).2 = none ∧
    ctxGetDependencies (unloadPlugin sP "p").1 ctxP = .ok [] ∧
    (ctxEmit (unloadPlugin sPBadCleanup "p").1 "p" "evt").2.1 =
      some (.contextInvalid "p") := by
  decide

/-! ## Claim C4 — listener cleanup on unload -/

/-- C4: the claim says `on`- and `once`-registered listeners are both recorded
in the per-plugin registry and none survives unload. The code's `once` records
nothing, so an unfired `once` listener stays on the shared bus after
`unloadPlugin` completes and is still invoked by a later emission, while an
`on` listener is correctly removed. -/
theorem once_listener_not_recorded_and_survives_unload :
    (ctxOnce sP "p" "evt" 5).2 = none ∧
    mapGet sPOnce.pluginListeners "p" = none ∧
    (unloadPlugin sPOnce "p").2 = none ∧
    (unloadPlugin sPOnce "p").1.busListeners = [⟨0, "evt", "p", 5, true⟩] ∧
    (busEmit (unloadPlugin sPOnce "p").1.busListeners "evt" "q").2 = [5] ∧
    (unloadPlugin sPOn "p").1.busListeners = [] := by
  decide

/-! ## Claim C5 — table name mapping and introspection -/

/-- C5 counterexample: with override
`{ allowedTables: ["users"], tableNameMap: { users: "accounts" } }` the claim
says `getAllowedTables()` returns `["users"]`; the proxy stores the prefixed
mapped names and un-prefixes them on introspection, so it returns
`["accounts"]`. -/
theorem getAllowedTables_reports_mapped_name :
    getAllowedTables c5db = ["accounts"] ∧ getAllowedTables c5db ≠ ["users"] := by
  decide

/-- C5 (amended): the query side of the claim holds — a statement referencing
`users` passes the access check and is delegated with `p_accounts` — while
`getAllowedTables()` reports `["accounts"]`, the unprefixed post-mapping name. -/
theorem query_mapped_to_prefixed_and_introspection_post_mapping :
    c5ctx.database = some c5db ∧
    executeQuery c5db "SELECT * FROM users" [] =
      .ok ("SELECT * FROM p_accounts", []) ∧
    executeCommand c5db "DELETE FROM users WHERE id = $1" ["1"] =
      .ok ("DELETE FROM p_accounts WHERE id = $1", ["1"]) ∧
    getAllowedTables c5db = ["accounts"] := by
  decide

/-! ## Claim C8 — undeclared dependency access -/

/-- C8: for a valid context, `getDependency` on any name outside the declared
dependency list always throws `UndeclaredDependencyError` — regardless of
whether a plugin of that name is loaded — and never returns a plugin. -/
theorem getDependency_undeclared_always_errors (s : PMState)
    (ctx : PluginContextData) (n : String)
    (hvalid : ctx.pluginName ∉ s.invalidatedPlugins)
    (hundecl : n ∉ ctx.dependencies) :
    ctxGetDependency s ctx n = .error (.undeclaredDependency ctx.pluginName n) := by
  unfold ctxGetDependency checkValid
  simp [hvalid, hundecl]

/-- C8 witness: in a state where a plugin `x` is loaded, a context of `p`
declaring no dependencies still gets `UndeclaredDependencyError` for `x`. -/
theorem getDependency_undeclared_always_errors_witness :
    ("p" ∉ sX.invalidatedPlugins ∧ "x" ∉ ctxNoDeps.dependencies ∧
      mapHas sX.plugins "x" = true) ∧
    ctxGetDependency sX ctxNoDeps "x" = .error (.undeclaredDependency "p" "x") :=
  ⟨⟨by decide, by decide, by decide⟩,
    getDependency_undeclared_always_errors sX ctxNoDeps "x" (by decide) (by decide)⟩

/-! ## Claim C2 — object-store proxy access gate -/

/-- C2 counterexample: the claim prescribes mapping then unconditional
prefixing. For the runtime bucket argument `p_data` (already carrying the
`p_` prefix) the claim's prefixed name is `p_p_data`, which is not allowed, so
the claim demands a denial; the code skips prefixing for names that already
start with `{slug}_` and delegates the upload. -/
theorem already_prefixed_bucket_bypasses_claim_gate :
    s3Upload s3RepoP "k" "b" none "p_data" = .ok (.upload "k" "b" none "p_data") ∧
    specClaimPrefixedBucket s3RepoP "p_data" = "p_p_data" ∧
    "p_p_data" ∉ s3RepoP.allowedBuckets := by
  decide

/-- C2 (amended): for every non-empty bucket argument, each of the six proxy
operations delegates with the mapped name prefixed by `{P}_` (unless the
mapped name already starts with `{P}_`, in which case it is used as-is) iff
that name is in the allowed set; otherwise it fails with
`BucketAccessDeniedError` naming the attempted bucket and the unprefixed
allowed buckets, and no delegated call happens. -/
theorem s3_proxy_access_gate (r : S3Repo) (key body pre : String)
    (ct : Option String) (expSec : Nat) (b : String) (hb : b ≠ "") :
    (prefixBucketName r b ∈ r.allowedBuckets →
      s3Upload r key body ct b =
        .ok (.upload key body ct (prefixBucketName r b)) ∧
      s3Download r key b = .ok (.download key (prefixBucketName r b)) ∧
      s3Delete r key b = .ok (.delete key (prefixBucketName r b)) ∧
      s3List r (some pre) b = .ok (.list (some pre) (prefixBucketName r b)) ∧
      s3Exists r key b = .ok (.exists key (prefixBucketName r b)) ∧
      s3GetPresignedUrl r key expSec b =
        .ok (.presignedUrl key expSec (prefixBucketName r b))) ∧
    (prefixBucketName r b ∉ r.allowedBuckets →
      s3Upload r key body ct b =
        .error (.bucketAccessDenied b (s3UnprefixedAllowed r)) ∧
      s3Download r key b = .error (.bucketAccessDenied b (s3UnprefixedAllowed r)) ∧
      s3Delete r key b = .error (.bucketAccessDenied b (s3UnprefixedAllowed r)) ∧
      s3List r (some pre) b =
        .error (.bucketAccessDenied b (s3UnprefixedAllowed r)) ∧
      s3Exists r key b = .error (.bucketAccessDenied b (s3UnprefixedAllowed r)) ∧
      s3GetPresignedUrl r key expSec b =
        .error (.bucketAccessDenied b (s3UnprefixedAllowed r))) := by
  constructor <;> intro hmem <;>
    simp [s3Upload, s3Download, s3Delete, s3List, s3Exists, s3GetPresignedUrl,
      validateBucketAccess, hb, hmem, Except.map]

/-- C2 witness: the gate at the concrete proxy of plugin `p` and bucket
`data`. -/
theorem s3_proxy_access_gate_witness :
    "data" ≠ "" ∧
    ((prefixBucketName s3RepoP "data" ∈ s3RepoP.allowedBuckets →
      s3Upload s3RepoP "k" "b" none "data" =
        .ok (.upload "k" "b" none (prefixBucketName s3RepoP "data")) ∧
      s3Download s3RepoP "k" "data" =
        .ok (.download "k" (prefixBucketName s3RepoP "data")) ∧
      s3Delete s3RepoP "k" "data" =
        .ok (.delete "k" (prefixBucketName s3RepoP "data")) ∧
      s3List s3RepoP (some "pre") "data" =
        .ok (.list (some "pre") (prefixBucketName s3RepoP "data")) ∧
      s3Exists s3RepoP "k" "data" =
        .ok (.exists "k" (prefixBucketName s3RepoP "data")) ∧
      s3GetPresignedUrl s3RepoP "k" 60 "data" =
        .ok (.presignedUrl "k" 60 (prefixBucketName s3RepoP "data"))) ∧
    (prefixBucketName s3RepoP "data" ∉ s3RepoP.allowedBuckets →
      s3Upload s3RepoP "k" "b" none "data" =
        .error (.bucketAccessDenied "data" (s3UnprefixedAllowed s3RepoP)) ∧
      s3Download s3RepoP "k" "data" =
        .error (.bucketAccessDenied "data" (s3UnprefixedAllowed s3RepoP)) ∧
      s3Delete s3RepoP "k" "data" =
        .error (.bucketAccessDenied "data" (s3UnprefixedAllowed s3RepoP)) ∧
      s3List s3RepoP (some "pre") "data" =
        .error (.bucketAccessDenied "data" (s3UnprefixedAllowed s3RepoP)) ∧
      s3Exists s3RepoP "k" "data" =
        .error (.bucketAccessDenied "data" (s3UnprefixedAllowed s3RepoP)) ∧
      s3GetPresignedUrl s3RepoP "k" 60 "data" =
        .error (.bucketAccessDenied "data" (s3UnprefixedAllowed s3RepoP)))) :=
  ⟨by decide, s3_proxy_access_gate s3RepoP "k" "b" "pre" none 60 "data" (by decide)⟩

/-! ## Lemmas about validation and unload, shared by C3, C6, C7 -/

/-- Every failure of `validateNamingConventions` is an
`InvalidNamingConventionError` for the plugin. -/
theorem validateNamingConventions_shape (m : PluginMetadata)
    (ov : Option PluginResourceOverrides) (e : PluginErr)
    (h : validateNamingConventions m ov = some e) :
    ∃ t, e = .invalidNamingConvention m.name t := by
  simp only [validateNamingConventions] at h
  split_ifs at h <;> (injection h with h'; exact ⟨_, h'.symm⟩)

/-- When the plugin's own name is not loaded but appears in its dependency
list, the `validateDependencies` loop fails — and the failure is a
`DependencyNotFoundError`, never `SelfDependencyError`, because the self check
sits behind the loaded check. -/
theorem validateDependenciesLoop_self (plugins : List (String × PluginDef))
    (name : String) (deps : List String)
    (hname : mapHas plugins name = false) (hmem : name ∈ deps) :
    ∃ d, validateDependenciesLoop plugins name deps =
      some (.dependencyNotFound name d) := by
  induction deps with
  | nil => cases hmem
  | cons d rest ih =>
    by_cases hd : mapHas plugins d
    · have hdneq : ¬(d = name) := fun hh => by rw [hh, hname] at hd; cases hd
      have hmem' : name ∈ rest := by
        rcases List.mem_cons.1 hmem with hh | hh
        · exact absurd hh.symm hdneq
        · exact hh
      obtain ⟨d', hd'⟩ := ih hmem'
      exact ⟨d', by simp [validateDependenciesLoop, hd, hdneq, hd']⟩
    · exact ⟨d, by simp [validateDependenciesLoop, hd]⟩

/-- A successful unload deletes the plugin from the registry and reports no
error. -/
theorem unloadPlugin_ok (s : PMState) (name : String) (plugin : PluginDef)
    (hget : mapGet s.plugins name = some plugin)
    (hcl : plugin.cleanupHook ≠ some false) :
    (unloadPlugin s name).1.plugins = mapDelete s.plugins name ∧
    (unloadPlugin s name).2 = none := by
  unfold unloadPlugin
  simp only [hget]
  have : (plugin.cleanupHook = some false) = False := by simp [hcl]
  simp only [this, if_false]
  split <;> simp

/-! ## Claim C6 — self-dependency -/

/-- C6 counterexample: loading a plugin `a` declaring itself as a dependency
fails with `DependencyNotFoundError('a','a')`, not `SelfDependencyError`. -/
theorem self_dependency_reports_dependency_not_found :
    (loadPlugin (pmInit cfg0) "path-a" (.ok (some pdSelf)) none).2 =
      .error (.dependencyNotFound "a" "a") ∧
    (loadPlugin (pmInit cfg0) "path-a" (.ok (some pdSelf)) none).2 ≠
      .error (.selfDependency "a") := by
  decide

/-- C6 (amended): a plugin declaring itself as a dependency always fails to
load, but never with `SelfDependencyError`: any same-name instance is unloaded
before validation, so the self name is not loaded and the loop's
`DependencyNotFound` check fires first (or an earlier naming/unload failure
surfaces); the self check is unreachable from `loadPlugin`. -/
theorem self_dependency_always_fails_without_self_error (s : PMState)
    (path : String) (ov : Option PluginResourceOverrides) (pd : PluginDef)
    (hself : pd.metadata.name ∈ pd.metadata.dependencies.getD [])
    (hwf : (s.plugins.map Prod.fst).Nodup) :
    (∃ e, (loadPlugin s path (.ok (some pd)) ov).2 = .error e) ∧
    (∀ n, (loadPlugin s path (.ok (some pd)) ov).2 ≠
      .error (.selfDependency n)) := by
  unfold loadPlugin
  by_cases hload : mapHas s.plugins pd.metadata.name
  · -- an existing same-name plugin is unloaded first
    unfold mapHas at hload
    cases hget : mapGet s.plugins pd.metadata.name with
    | none => rw [hget] at hload; cases hload
    | some plugin =>
      by_cases hcl : plugin.cleanupHook = some false
      · -- prior cleanup throws: PluginLoadError
        have h2 : (unloadPlugin s pd.metadata.name).2 =
            some (.pluginUnloadError pd.metadata.name) := by
          unfold unloadPlugin
          simp [hget, hcl]
        simp only [mapHas, hget, Option.isSome_some, if_true, h2]
        exact ⟨⟨.pluginLoadError path, rfl⟩, fun n h => by cases h⟩
      · obtain ⟨hpl, h2⟩ := unloadPlugin_ok s pd.metadata.name plugin hget hcl
        have hgone : mapGet (unloadPlugin s pd.metadata.name).1.plugins
            pd.metadata.name = none := by
          rw [hpl]; exact mapGet_mapDelete_self _ _ hwf
        simp only [mapHas, hget, Option.isSome_some, if_true, h2]
        cases hnv : validateNamingConventions pd.metadata ov with
        | some e =>
          obtain ⟨t, ht⟩ := validateNamingConventions_shape _ _ _ hnv
          exact ⟨⟨e, rfl⟩, fun n h => by rw [ht] at h; cases h⟩
        | none =>
          obtain ⟨d, hd⟩ := validateDependenciesLoop_self
            (unloadPlugin s pd.metadata.name).1.plugins pd.metadata.name
            (pd.metadata.dependencies.getD []) (by simp [mapHas, hgone]) hself
          simp only [validateDependencies, hd]
          exact ⟨⟨.dependencyNotFound pd.metadata.name d, rfl⟩,
            fun n h => by cases h⟩
  · have hnone : mapGet s.plugins pd.metadata.name = none := by
      unfold mapHas at hload
      cases hget : mapGet s.plugins pd.metadata.name with
      | none => rfl
      | some plugin => rw [hget] at hload; simp at hload
    simp only [mapHas, hnone, Option.isSome_none, Bool.false_eq_true, if_false]
    cases hnv : validateNamingConventions pd.metadata ov with
    | some e =>
      obtain ⟨t, ht⟩ := validateNamingConventions_shape _ _ _ hnv
      exact ⟨⟨e, rfl⟩, fun n h => by rw [ht] at h; cases h⟩
    | none =>
      obtain ⟨d, hd⟩ := validateDependenciesLoop_self s.plugins pd.metadata.name
        (pd.metadata.dependencies.getD []) (by simp [mapHas, hnone]) hself
      simp only [validateDependencies, hd]
      exact ⟨⟨.dependencyNotFound pd.metadata.name d, rfl⟩, fun n h => by cases h⟩

/-- C6 witness: the amended claim at the concrete self-dependent plugin `a` in
a fresh manager. -/
theorem self_dependency_always_fails_without_self_error_witness :
    ("a" ∈ pdSelf.metadata.dependencies.getD [] ∧
      ((pmInit cfg0).plugins.map Prod.fst).Nodup) ∧
    ((∃ e, (loadPlugin (pmInit cfg0) "path-a" (.ok (some pdSelf)) none).2 =
        .error e) ∧
     (∀ n, (loadPlugin (pmInit cfg0) "path-a" (.ok (some pdSelf)) none).2 ≠
        .error (.selfDependency n))) :=
  ⟨⟨by decide, by decide⟩,
    self_dependency_always_fails_without_self_error (pmInit cfg0) "path-a" none
      pdSelf (by decide) (by decide)⟩

/-! ## Claim C3 — atomic accept/reject of `loadPlugin` -/

/-- C3 counterexample: a plugin `f` whose `initialize` hook throws is rejected
by `loadPlugin`, yet the recorded dependency set and the created context
remain registered afterwards — the rejected plugin leaves a trace, so the
manager's state is not "exactly as it was before the call". -/
theorem rejected_initialize_leaves_trace :
    (loadPlugin (pmInit cfg0) "path-f" (.ok (some pdBadInit)) none).2 =
      .error (.pluginLoadError "path-f") ∧
    mapGet (loadPlugin (pmInit cfg0) "path-f"
      (.ok (some pdBadInit)) none).1.pluginDependencies "f" = some [] ∧
    (mapGet (loadPlugin (pmInit cfg0) "path-f"
      (.ok (some pdBadInit)) none).1.pluginContexts "f").isSome = true ∧
    (loadPlugin (pmInit cfg0) "path-f" (.ok (some pdBadInit)) none).1 ≠
      pmInit cfg0 := by
  decide

/-- C3 (amended): when no same-name plugin is loaded, every validation-time
failure of `loadPlugin` (format, naming, dependency errors — the typed errors
rethrown unchanged) leaves the state untouched; but a failure of the
`initialize` hook happens after the dependency set, the stored overrides, the
context and the name maps were recorded, and only the plugin and path
registries stay untouched — such a rejected plugin leaves a trace. -/
theorem loadPlugin_failure_state_trace (s : PMState) (pluginPath : String)
    (mod : Except Unit (Option PluginDef)) (ov : Option PluginResourceOverrides)
    (hfresh : ∀ pd, mod = .ok (some pd) →
      mapHas s.plugins pd.metadata.name = false) :
    (∀ e, (loadPlugin s pluginPath mod ov).2 = .error e →
      isValidationErr e = true → (loadPlugin s pluginPath mod ov).1 = s) ∧
    (∀ pd, mod = .ok (some pd) → pd.initializeHook = some false →
      validateNamingConventions pd.metadata ov = none →
      validateDependencies s pd = none →
      (loadPlugin s pluginPath mod ov).2 = .error (.pluginLoadError pluginPath) ∧
      (loadPlugin s pluginPath mod ov).1.plugins = s.plugins ∧
      (loadPlugin s pluginPath mod ov).1.pluginPaths = s.pluginPaths ∧
      mapGet (loadPlugin s pluginPath mod ov).1.pluginDependencies
        pd.metadata.name =
        some (dedupFirst (pd.metadata.dependencies.getD [])) ∧
      (mapGet (loadPlugin s pluginPath mod ov).1.pluginContexts
        pd.metadata.name).isSome = true ∧
      (∀ o, ov = some o →
        mapGet (loadPlugin s pluginPath mod ov).1.pluginResourceOverrides
          pd.metadata.name = some o)) := by
  match mod with
  | .error () =>
    refine ⟨fun e he hval => rfl, fun pd hpd => ?_⟩
    cases hpd
  | .ok none =>
    refine ⟨fun e he hval => rfl, fun pd hpd => ?_⟩
    cases hpd
  | .ok (some pd) =>
    have hload : mapHas s.plugins pd.metadata.name = false := hfresh pd rfl
    unfold loadPlugin
    simp only [hload, Bool.false_eq_true, if_false]
    cases hnv : validateNamingConventions pd.metadata ov with
    | some e =>
      simp only [hnv]
      refine ⟨fun e' he' hval => trivial, fun pd' hpd' hinit hnv' hvd' => ?_⟩
      cases hpd'
      rw [hnv] at hnv'
      cases hnv'
    | none =>
      simp only [hnv]
      cases hvd : validateDependencies s pd with
      | some e =>
        simp only [hvd]
        refine ⟨fun e' he' hval => trivial, fun pd' hpd' hinit hnv' hvd' => ?_⟩
        cases hpd'
        rw [hvd] at hvd'
        cases hvd'
      | none =>
        simp only [hvd]
        by_cases hinit : pd.initializeHook = some false
        · rw [if_pos hinit]
          constructor
          · intro e he hval
            injection he with he'
            rw [← he'] at hval
            simp [isValidationErr] at hval
          · intro pd' hpd' _ _ _
            cases hpd'
            refine ⟨rfl, ?_, ?_, ?_, ?_, ?_⟩
            · cases ov <;> simp [createPluginContext]
            · cases ov <;> simp [createPluginContext]
            · cases ov <;> simp [createPluginContext, mapGet_mapSet_self]
            · cases ov <;> simp [createPluginContext, mapGet_mapSet_self]
            · intro o ho
              cases ho
              simp [createPluginContext, mapGet_mapSet_self]
        · rw [if_neg hinit]
          constructor
          · intro e he hval
            cases he
          · intro pd' hpd' hinit' _ _
            cases hpd'
            exact absurd hinit' hinit

/-- C3 witness: the amended claim at the concrete throwing-initialize plugin
`f` loaded into a fresh manager. -/
theorem loadPlugin_failure_state_trace_witness :
    (∀ pd : PluginDef, (.ok (some pdBadInit) : Except Unit (Option PluginDef)) =
        .ok (some pd) → mapHas (pmInit cfg0).plugins pd.metadata.name = false) ∧
    ((∀ e, (loadPlugin (pmInit cfg0) "path-f" (.ok (some pdBadInit)) none).2 =
        .error e → isValidationErr e = true →
        (loadPlugin (pmInit cfg0) "path-f" (.ok (some pdBadInit)) none).1 =
          pmInit cfg0) ∧
     (∀ pd, (.ok (some pdBadInit) : Except Unit (Option PluginDef)) =
        .ok (some pd) → pd.initializeHook = some false →
        validateNamingConventions pd.metadata none = none →
        validateDependencies (pmInit cfg0) pd = none →
        (loadPlugin (pmInit cfg0) "path-f" (.ok (some pdBadInit)) none).2 =
          .error (.pluginLoadError "path-f") ∧
        (loadPlugin (pmInit cfg0) "path-f"
          (.ok (some pdBadInit)) none).1.plugins = (pmInit cfg0).plugins ∧
        (loadPlugin (pmInit cfg0) "path-f"
          (.ok (some pdBadInit)) none).1.pluginPaths =
          (pmInit cfg0).pluginPaths ∧
        mapGet (loadPlugin (pmInit cfg0) "path-f"
          (.ok (some pdBadInit)) none).1.pluginDependencies pd.metadata.name =
          some (dedupFirst (pd.metadata.dependencies.getD [])) ∧
        (mapGet (loadPlugin (pmInit cfg0) "path-f"
          (.ok (some pdBadInit)) none).1.pluginContexts
          pd.metadata.name).isSome = true ∧
        (∀ o, (none : Option PluginResourceOverrides) = some o →
          mapGet (loadPlugin (pmInit cfg0) "path-f"
            (.ok (some pdBadInit)) none).1.pluginResourceOverrides
            pd.metadata.name = some o))) :=
  ⟨fun pd h => by cases h; decide,
    loadPlugin_failure_state_trace (pmInit cfg0) "path-f" (.ok (some pdBadInit))
      none (fun pd h => by cases h; decide)⟩

/-! ## Claim C7 — circular dependency detection -/

/-- The fuel of the circular walk is always at least 2, so the first two
levels of the walk can be unfolded. -/
theorem two_le_circFuel (graph : List (String × List String))
    (deps : List String) : 2 ≤ circFuel graph deps := by
  unfold circFuel
  have hbase : 2 ≤ graph.foldl (fun n p => n + p.2.length) 0 + deps.length + 2 := by
    omega
  calc 2 ≤ graph.foldl (fun n p => n + p.2.length) 0 + deps.length + 2 := hbase
    _ = (graph.foldl (fun n p => n + p.2.length) 0 + deps.length + 2) ^ 1 := by
        rw [pow_one]
    _ ≤ (graph.foldl (fun n p => n + p.2.length) 0 + deps.length + 2) ^
          (graph.length + 2) := by
        exact Nat.pow_le_pow_right (by omega) (by omega)

/-- C7: loading a plugin `a` that depends on the loaded plugin `b`, where
walking `b`'s recorded dependencies revisits a name already on the walk path
(`b`'s recorded dependency set is non-empty and contained in `{a, b}`), fails
with `CircularDependencyError` whose carried chain is the walked path
`[a, b]`, so the reported chain `a -> b -> a` contains both names, preserves
the walk order, and ends back at the origin `a`. -/
theorem circular_dependency_detected (s : PMState) (path : String)
    (ov : Option PluginResourceOverrides) (pd : PluginDef) (a b : String)
    (db : List String)
    (hname : pd.metadata.name = a)
    (hdeps : pd.metadata.dependencies = some [b])
    (hab : a ≠ b)
    (hnotloaded : mapHas s.plugins a = false)
    (hbload : mapHas s.plugins b = true)
    (hnaming : validateNamingConventions pd.metadata ov = none)
    (hgraph : mapGet s.pluginDependencies b = some db)
    (hdbne : db ≠ [])
    (hdbsub : ∀ d ∈ db, d = a ∨ d = b) :
    (loadPlugin s path (.ok (some pd)) ov).2 =
      .error (.circularDependency a [a, b]) ∧
    reportedChain a [a, b] = [a, b, a] ∧
    a ∈ reportedChain a [a, b] ∧ b ∈ reportedChain a [a, b] ∧
    (reportedChain a [a, b]).getLast? = some a := by
  have hcirc : checkCircularDependencies s.pluginDependencies a [b] [a] =
      some (a, [a, b]) := by
    unfold checkCircularDependencies
    obtain ⟨F, hF⟩ : ∃ F, circFuel s.pluginDependencies [b] = F + 2 :=
      ⟨circFuel s.pluginDependencies [b] - 2,
        by have := two_le_circFuel s.pluginDependencies [b]; omega⟩
    rw [hF]
    show checkCircularF s.pluginDependencies a (F + 1 + 1) [b] [a] = _
    unfold checkCircularF
    have hb : (b ∈ [a]) = False := by
      simp [hab.symm, fun h : b = a => hab h.symm]
    simp only [hb, if_false, hgraph]
    cases db with
    | nil => exact absurd rfl hdbne
    | cons d rest =>
      simp only [List.length_cons, Nat.zero_lt_succ, if_true]
      unfold checkCircularF
      rcases hdbsub d (List.mem_cons_self d rest) with h | h <;> simp [h]
  have hvd : validateDependencies s pd = some (.circularDependency a [a, b]) := by
    unfold validateDependencies
    rw [hdeps, hname]
    have hloop : validateDependenciesLoop s.plugins a [b] = none := by
      have hbne : ¬(b = a) := fun h => hab h.symm
      simp [validateDependenciesLoop, hbload, hbne]
    simp only [Option.getD_some, hloop, hcirc]
  refine ⟨?_, rfl, by simp [reportedChain], by simp [reportedChain],
    by simp [reportedChain]⟩
  have hnl : mapHas s.plugins pd.metadata.name = false := by
    rw [hname]; exact hnotloaded
  unfold loadPlugin
  simp only [hnl, Bool.false_eq_true, if_false, hnaming, hvd]

/-- C7 witness: the concrete two-plugin cycle — `b` loaded with recorded
dependency set `{a}`, then loading `a` depending on `b`. -/
theorem circular_dependency_detected_witness :
    (pdAdepB.metadata.name = "a" ∧
      pdAdepB.metadata.dependencies = some ["b"] ∧
      "a" ≠ "b" ∧ mapHas sCyc.plugins "a" = false ∧
      mapHas sCyc.plugins "b" = true ∧
      validateNamingConventions pdAdepB.metadata none = none ∧
      mapGet sCyc.pluginDependencies "b" = some ["a"] ∧
      (["a"] : List String) ≠ [] ∧
      (∀ d ∈ (["a"] : List String), d = "a" ∨ d = "b")) ∧
    ((loadPlugin sCyc "path-a" (.ok (some pdAdepB)) none).2 =
      .error (.circularDependency "a" ["a", "b"]) ∧
    reportedChain "a" ["a", "b"] = ["a", "b", "a"] ∧
    "a" ∈ reportedChain "a" ["a", "b"] ∧ "b" ∈ reportedChain "a" ["a", "b"] ∧
    (reportedChain "a" ["a", "b"]).getLast? = some "a") :=
  ⟨⟨by decide, by decide, by decide, by decide, by decide, by decide, by decide,
    by decide, by decide⟩,
   circular_dependency_detected sCyc "path-a" none pdAdepB "a" "b" ["a"]
     (by decide) (by decide) (by decide) (by decide) (by decide) (by decide)
     (by decide) (by decide) (by decide)⟩

/-! ## Claim C10 — `off` clears the whole per-event registry entry -/

theorem busOff_sublist (bus : List BusEntry) (e : String) (wid : Nat) :
    List.Sublist (busOff bus e wid) bus := by
  induction bus with
  | nil => simp [busOff]
  | cons x rest ih =>
    unfold busOff
    by_cases h : (x.event = e && x.id = wid) = true
    · rw [if_pos h]
      exact List.sublist_cons_self x rest
    · rw [if_neg h]
      exact List.Sublist.cons₂ x ih

theorem mem_busOff {x : BusEntry} {bus : List BusEntry} {e : String} {wid : Nat}
    (h : x ∈ busOff bus e wid) : x ∈ bus :=
  (busOff_sublist bus e wid).mem h

/-- With duplicate-free listener identities, `busOff` leaves no entry matching
the removed (event, identity) pair. -/
theorem busOff_removes {bus : List BusEntry} {e : String} {wid : Nat}
    (hnodup : (bus.map BusEntry.id).Nodup) :
    ∀ x ∈ busOff bus e wid, ¬(x.event = e ∧ x.id = wid) := by
  induction bus with
  | nil => simp [busOff]
  | cons y rest ih =>
    simp only [List.map_cons, List.nodup_cons] at hnodup
    intro x hx hcontra
    unfold busOff at hx
    by_cases h : (y.event = e && y.id = wid) = true
    · rw [if_pos h] at hx
      simp only [Bool.and_eq_true, decide_eq_true_eq] at h
      exact hnodup.1 (by
        have hyx : y.id = x.id := h.2.trans hcontra.2.symm
        rw [hyx]
        exact List.mem_map_of_mem BusEntry.id hx)
    · rw [if_neg h] at hx
      rcases List.mem_cons.1 hx with hxy | hxr
      · subst hxy
        exact h (by simp [hcontra.1, hcontra.2])
      · exact ih hnodup.2 x hxr hcontra

theorem mem_foldl_busOff {x : BusEntry} {e : String} :
    ∀ (ws : List Nat) (bus : List BusEntry),
      x ∈ ws.foldl (fun b wid => busOff b e wid) bus → x ∈ bus := by
  intro ws
  induction ws with
  | nil => intro bus h; exact h
  | cons w ws' ih =>
    intro bus h
    exact mem_busOff (ih (busOff bus e w) h)

theorem foldl_busOff_nodup {e : String} :
    ∀ (ws : List Nat) (bus : List BusEntry),
      (bus.map BusEntry.id).Nodup →
      ((ws.foldl (fun b wid => busOff b e wid) bus).map BusEntry.id).Nodup := by
  intro ws
  induction ws with
  | nil => intro bus h; exact h
  | cons w ws' ih =>
    intro bus h
    exact ih (busOff bus e w)
      (List.Nodup.sublist ((busOff_sublist bus e w).map BusEntry.id) h)

/-- Folding `busOff` over a set of identities removes every one of them for
the event (assuming duplicate-free identities on the bus). -/
theorem foldl_busOff_removes {e : String} :
    ∀ (ws : List Nat) (bus : List BusEntry),
      (bus.map BusEntry.id).Nodup →
      ∀ wid ∈ ws, ∀ x ∈ ws.foldl (fun b w => busOff b e w) bus,
        ¬(x.event = e ∧ x.id = wid) := by
  intro ws
  induction ws with
  | nil => intro bus _ wid h; cases h
  | cons w ws' ih =>
    intro bus hnodup wid hwid x hx
    rcases List.mem_cons.1 hwid with hww | hww
    · subst hww
      exact busOff_removes hnodup x (mem_foldl_busOff ws' (busOff bus e wid) hx)
    · exact ih (busOff bus e w)
        (List.Nodup.sublist ((busOff_sublist bus e w).map BusEntry.id) hnodup)
        wid hww x hx

/-- C10 counterexample: `off` only clears listeners recorded in the registry.
A `once`-registered listener is never recorded, so after `p` calls
`off("evt", f)` the once wrapper stays on the shared bus and a later emission
of `evt` by another plugin still invokes the plugin-supplied listener 5 —
the claim's "no listener P previously registered for e is invoked" fails. -/
theorem off_leaves_once_listener_active :
    (ctxOff sPOnce "p" "evt").2 = none ∧
    (ctxEmit (ctxOff sPOnce "p" "evt").1 "q" "evt").2.2 = [5] := by
  decide

/-- C10 (amended): for a valid context and duplicate-free wrapped-listener
identities, `off(e, f)` ignores the supplied listener, removes every listener
recorded in P's registry for event e from the shared bus (not only f), and
clears the registry entry; listeners registered via `once` are not recorded
and are unaffected. -/
theorem ctxOff_removes_all_recorded (s : PMState) (p e : String)
    (hvalid : p ∉ s.invalidatedPlugins)
    (hids : (s.busListeners.map BusEntry.id).Nodup) :
    (ctxOff s p e).2 = none ∧
    (mapGet ((mapGet (ctxOff s p e).1.pluginListeners p).getD []) e).getD []
      = [] ∧
    (∀ wid ∈ (mapGet ((mapGet s.pluginListeners p).getD []) e).getD [],
      ∀ x ∈ (ctxOff s p e).1.busListeners, ¬(x.event = e ∧ x.id = wid)) := by
  have hcv : checkValid s p = none := by simp [checkValid, hvalid]
  cases hpl : mapGet s.pluginListeners p with
  | none =>
    have hred : ctxOff s p e = (s, none) := by
      unfold ctxOff
      simp only [hcv, hpl]
    rw [hred]
    refine ⟨rfl, ?_, ?_⟩
    · simp [hpl, mapGet]
    · intro wid hwid
      simp [mapGet] at hwid
  | some pl =>
    cases hev : mapGet pl e with
    | none =>
      have hred : ctxOff s p e = (s, none) := by
        unfold ctxOff
        simp only [hcv, hpl, hev]
      rw [hred]
      refine ⟨rfl, ?_, ?_⟩
      · simp [hpl, hev]
      · intro wid hwid
        simp only [Option.getD_some] at hwid
        rw [hev] at hwid
        simp at hwid
    | some widSet =>
      have hred : ctxOff s p e =
          ({ s with
              busListeners :=
                widSet.foldl (fun b wid => busOff b e wid) s.busListeners
              pluginListeners :=
                mapSet s.pluginListeners p (mapSet pl e []) }, none) := by
        unfold ctxOff
        simp only [hcv, hpl, hev]
      rw [hred]
      refine ⟨rfl, ?_, ?_⟩
      · simp [mapGet_mapSet_self]
      · intro wid hwid x hx hcontra
        simp only [Option.getD_some] at hwid
        rw [hev] at hwid
        simp only [Option.getD_some] at hwid
        exact foldl_busOff_removes widSet s.busListeners hids wid hwid x hx
          hcontra

/-- C10 witness: the amended claim at the state where `p` has one recorded
`on` listener (identity 0) for `evt`. -/
theorem ctxOff_removes_all_recorded_witness :
    ("p" ∉ sPOn.invalidatedPlugins ∧
      (sPOn.busListeners.map BusEntry.id).Nodup) ∧
    ((ctxOff sPOn "p" "evt").2 = none ∧
     (mapGet ((mapGet (ctxOff sPOn "p" "evt").1.pluginListeners "p").getD [])
       "evt").getD [] = [] ∧
     (∀ wid ∈ (mapGet ((mapGet sPOn.pluginListeners "p").getD [])
         "evt").getD [],
       ∀ x ∈ (ctxOff sPOn "p" "evt").1.busListeners,
         ¬(x.event = "evt" ∧ x.id = wid))) :=
  ⟨⟨by decide, by decide⟩,
    ctxOff_removes_all_recorded sPOn "p" "evt" (by decide) (by decide)⟩

/-! ## Claim C9 — fixed-point directory loading -/

theorem extOrdered_append (depsOf : String → List String)
    (acc d1 d2 : List String) (h1 : extOrdered depsOf acc d1)
    (h2 : extOrdered depsOf (acc ++ d1) d2) :
    extOrdered depsOf acc (d1 ++ d2) := by
  induction d1 generalizing acc with
  | nil => simpa using h2
  | cons x d ih =>
    obtain ⟨hx, h1'⟩ := h1
    refine ⟨hx, ?_⟩
    apply ih (acc ++ [x]) h1'
    simpa [List.append_assoc] using h2

theorem dirPass_sublist (ok : String → Bool) :
    ∀ (rem : List (String × List String)) (loaded : List String),
      List.Sublist (dirPass ok rem loaded).1 rem := by
  intro rem
  induction rem with
  | nil => intro loaded; simp [dirPass]
  | cons hd rest ih =>
    intro loaded
    obtain ⟨name, deps⟩ := hd
    unfold dirPass
    by_cases h1 : deps.all (· ∈ loaded) = true
    · rw [if_pos h1]
      by_cases h2 : ok name = true
      · rw [if_pos h2]
        exact (ih (setAdd loaded name)).trans (List.sublist_cons_self _ rest)
      · rw [if_neg h2]
        exact (ih loaded).trans (List.sublist_cons_self _ rest)
    · rw [if_neg h1]
      exact List.Sublist.cons₂ _ (ih loaded)

/-- A pass that loaded at least one descriptor strictly shrinks the remaining
set (hence the loop's pass count is bounded by the descriptor count). -/
theorem dirPass_any_lt (ok : String → Bool) :
    ∀ (rem : List (String × List String)) (loaded : List String),
      (dirPass ok rem loaded).2.2 = true →
      (dirPass ok rem loaded).1.length < rem.length := by
  intro rem
  induction rem with
  | nil => intro loaded h; simp [dirPass] at h
  | cons hd rest ih =>
    intro loaded hany
    obtain ⟨name, deps⟩ := hd
    unfold dirPass at hany ⊢
    by_cases h1 : deps.all (· ∈ loaded) = true
    · rw [if_pos h1] at hany ⊢
      by_cases h2 : ok name = true
      · rw [if_pos h2] at hany ⊢
        have := (dirPass_sublist ok rest (setAdd loaded name)).length_le
        simpa using Nat.lt_succ_of_le this
      · rw [if_neg h2] at hany ⊢
        have := (dirPass_sublist ok rest loaded).length_le
        simpa using Nat.lt_succ_of_le this
    · rw [if_neg h1] at hany ⊢
      simp only [List.length_cons]
      exact Nat.succ_lt_succ (ih loaded hany)

/-- The pass invariants: the loaded list grows by descriptors whose
dependencies were satisfied at their load instant (`extOrdered`), only names
from the scan set are appended, kept descriptors form a sublist, stay disjoint
from everything loaded, and a pass that loads nothing keeps the loaded set and
every kept descriptor unsatisfied. -/
theorem dirPass_spec (ok : String → Bool) (depsOf : String → List String) :
    ∀ (rem : List (String × List String)) (loaded : List String),
      (∀ p ∈ rem, p.2 = depsOf p.1) →
      ((rem.map Prod.fst).Nodup) →
      (∀ p ∈ rem, p.1 ∉ loaded) →
      ∃ δ,
        (dirPass ok rem loaded).2.1 = loaded ++ δ ∧
        (∀ y ∈ δ, y ∈ rem.map Prod.fst) ∧
        extOrdered depsOf loaded δ ∧
        (∀ p ∈ (dirPass ok rem loaded).1, p.1 ∉ loaded ++ δ) ∧
        ((dirPass ok rem loaded).2.2 = false → δ = [] ∧
          ∀ p ∈ (dirPass ok rem loaded).1, p.2.all (· ∈ loaded) = false) := by
  intro rem
  induction rem with
  | nil =>
    intro loaded _ _ _
    exact ⟨[], by simp [dirPass], by simp, by constructor, by simp [dirPass],
      fun _ => ⟨rfl, by simp [dirPass]⟩⟩
  | cons hd rest ih =>
    intro loaded hagree hnodup hdisj
    obtain ⟨name, deps⟩ := hd
    have hnm : name ∉ rest.map Prod.fst := by
      simpa using (List.nodup_cons.1 hnodup).1
    have hnl : name ∉ loaded := hdisj (name, deps) (List.mem_cons_self _ _)
    unfold dirPass
    by_cases h1 : deps.all (· ∈ loaded) = true
    · rw [if_pos h1]
      by_cases h2 : ok name = true
      · rw [if_pos h2]
        have hsa : setAdd loaded name = loaded ++ [name] := by
          simp [setAdd, hnl]
        obtain ⟨δ', c1, c2, c3, c5, _⟩ := ih (setAdd loaded name)
          (fun p hp => hagree p (List.mem_cons_of_mem _ hp))
          (List.nodup_cons.1 hnodup).2
          (fun p hp => by
            rw [hsa]
            simp only [List.mem_append, List.mem_singleton]
            rintro (h | h)
            · exact hdisj p (List.mem_cons_of_mem _ hp) h
            · exact hnm (h ▸ List.mem_map_of_mem Prod.fst hp))
        rw [hsa] at c1 c3 c5
        simp only [hsa]
        refine ⟨name :: δ', ?_, ?_, ?_, ?_, ?_⟩
        · rw [c1, List.append_assoc]
          rfl
        · intro y hy
          rcases List.mem_cons.1 hy with hy | hy
          · simp [hy]
          · exact List.mem_cons_of_mem _ (c2 y hy)
        · have heq : deps = depsOf name :=
            hagree (name, deps) (List.mem_cons_self _ _)
          refine ⟨?_, c3⟩
          intro d hd
          rw [← heq] at hd
          have := List.all_eq_true.1 h1 d hd
          simpa using this
        · intro p hp
          have := c5 p hp
          rw [List.append_assoc] at this
          exact this
        · intro hfalse
          simp at hfalse
      · rw [if_neg h2]
        obtain ⟨δ', c1, c2, c3, c5, c6⟩ := ih loaded
          (fun p hp => hagree p (List.mem_cons_of_mem _ hp))
          (List.nodup_cons.1 hnodup).2
          (fun p hp => hdisj p (List.mem_cons_of_mem _ hp))
        exact ⟨δ', c1, fun y hy => List.mem_cons_of_mem _ (c2 y hy), c3, c5, c6⟩
    · rw [if_neg h1]
      obtain ⟨δ', c1, c2, c3, c5, c6⟩ := ih loaded
        (fun p hp => hagree p (List.mem_cons_of_mem _ hp))
        (List.nodup_cons.1 hnodup).2
        (fun p hp => hdisj p (List.mem_cons_of_mem _ hp))
      refine ⟨δ', c1, fun y hy => List.mem_cons_of_mem _ (c2 y hy), c3, ?_, ?_⟩
      · intro p hp
        rcases List.mem_cons.1 hp with hp | hp
        · subst hp
          simp only [List.mem_append, not_or]
          exact ⟨hnl, fun h => hnm (c2 _ h)⟩
        · exact c5 p hp
      · intro hfalse
        obtain ⟨hδ, hun⟩ := c6 hfalse
        refine ⟨hδ, ?_⟩
        intro p hp
        rcases List.mem_cons.1 hp with hp | hp
        · subst hp
          simpa using h1
        · exact hun p hp

/-- The invariant-carrying specification of the `while` loop: a successful run
yields a load order in which every plugin follows all of its declared
dependencies, and a failing run throws `DependencyResolutionError` carrying
exactly the names of the non-empty terminal scan set, none of which was
loaded and each of which still has an unsatisfied dependency. -/
theorem dirLoopF_spec (ok : String → Bool) (depsOf : String → List String) :
    ∀ (fuel : Nat) (rem : List (String × List String)) (loaded : List String),
      (∀ p ∈ rem, p.2 = depsOf p.1) →
      ((rem.map Prod.fst).Nodup) →
      (∀ p ∈ rem, p.1 ∉ loaded) →
      rem.length ≤ fuel →
      extOrdered depsOf [] loaded →
      (∀ order, dirLoopF ok fuel rem loaded = .ok order →
        extOrdered depsOf [] order) ∧
      (∀ names, dirLoopF ok fuel rem loaded = .error names →
        names ≠ [] ∧ ∃ remFinal loadedFinal,
          names = remFinal.map Prod.fst ∧ remFinal ≠ [] ∧
          (∀ p ∈ remFinal, p.2 = depsOf p.1) ∧
          (∀ p ∈ remFinal, p.2.all (· ∈ loadedFinal) = false) ∧
          (∀ p ∈ remFinal, p.1 ∉ loadedFinal) ∧
          extOrdered depsOf [] loadedFinal) := by
  intro fuel
  induction fuel with
  | zero =>
    intro rem loaded hagree hnodup hdisj hfuel hbase
    have hnil : rem = [] := List.eq_nil_of_length_eq_zero (Nat.le_zero.1 hfuel)
    subst hnil
    constructor
    · intro order h
      injection h with h'
      rw [← h']
      exact hbase
    · intro names h
      cases h
  | succ f ihf =>
    intro rem loaded hagree hnodup hdisj hfuel hbase
    cases rem with
    | nil =>
      constructor
      · intro order h
        injection h with h'
        rw [← h']
        exact hbase
      · intro names h
        cases h
    | cons hd rest =>
      obtain ⟨δ, c1, c2, c3, c5, c6⟩ :=
        dirPass_spec ok depsOf (hd :: rest) loaded hagree hnodup hdisj
      have hsub := dirPass_sublist ok (hd :: rest) loaded
      have hagree' : ∀ p ∈ (dirPass ok (hd :: rest) loaded).1,
          p.2 = depsOf p.1 := fun p hp => hagree p (hsub.mem hp)
      have hnodup' : (((dirPass ok (hd :: rest) loaded).1.map Prod.fst)).Nodup :=
        List.Nodup.sublist (hsub.map Prod.fst) hnodup
      have hext : extOrdered depsOf [] (loaded ++ δ) :=
        extOrdered_append depsOf [] loaded δ hbase c3
      simp only [dirLoopF]
      by_cases hany : (dirPass ok (hd :: rest) loaded).2.2 = true
      · rw [if_pos hany]
        cases hrem : (dirPass ok (hd :: rest) loaded).1 with
        | nil =>
          constructor
          · intro order h
            injection h with h'
            rw [← h', c1]
            exact hext
          · intro names h
            cases h
        | cons a rest' =>
          have hlt := dirPass_any_lt ok (hd :: rest) loaded hany
          rw [hrem] at hlt hagree' hnodup' c5
          exact ihf (a :: rest') (dirPass ok (hd :: rest) loaded).2.1
            hagree' hnodup' (by rw [c1]; exact c5)
            (by simp only [List.length_cons] at hlt hfuel ⊢; omega)
            (by rw [c1]; exact hext)
      · rw [if_neg hany]
        obtain ⟨hδ, hun⟩ := c6 (Bool.not_eq_true _ ▸ hany)
        subst hδ
        rw [List.append_nil] at c1 c5 hext
        cases hrem : (dirPass ok (hd :: rest) loaded).1 with
        | nil =>
          constructor
          · intro order h
            injection h with h'
            rw [← h', c1]
            exact hext
          · intro names h
            cases h
        | cons a rest' =>
          rw [hrem] at hagree' c5 hun
          constructor
          · intro order h
            cases h
          · intro names h
            injection h with h'
            refine ⟨by rw [← h']; simp, a :: rest', loaded, h'.symm, by simp,
              hagree', hun, c5, hext⟩

/-- Each entry of `mapSet m k v` is an entry of `m` or the new pair. -/
theorem mem_mapSet_entries (m : List (String × α)) (k : String) (v : α) :
    ∀ p ∈ mapSet m k v, p ∈ m ∨ p = (k, v) := by
  induction m with
  | nil => simp [mapSet]
  | cons q rest ih =>
    intro p hp
    unfold mapSet at hp
    by_cases h : q.1 = k
    · rw [if_pos h] at hp
      rcases List.mem_cons.1 hp with hp | hp
      · right
        rw [hp, h]
      · left
        exact List.mem_cons_of_mem _ hp
    · rw [if_neg h] at hp
      rcases List.mem_cons.1 hp with hp | hp
      · left
        rw [hp]
        exact List.mem_cons_self _ _
      · rcases ih p hp with hh | hh
        · exact Or.inl (List.mem_cons_of_mem _ hh)
        · exact Or.inr hh

/-- Keys of `mapSet m k v` are keys of `m` or the new key. -/
theorem mapSet_keys_subset (m : List (String × α)) (k : String) (v : α) :
    ∀ x ∈ (mapSet m k v).map Prod.fst, x ∈ m.map Prod.fst ∨ x = k := by
  intro x hx
  obtain ⟨p, hp, hpx⟩ := List.mem_map.1 hx
  rcases mem_mapSet_entries m k v p hp with h | h
  · exact Or.inl (hpx ▸ List.mem_map_of_mem Prod.fst h)
  · exact Or.inr (by rw [← hpx, h])

/-- Model of `mapSet` preserves duplicate-free keys (it updates in place or appends a
fresh key). -/
theorem mapSet_keys_nodup (m : List (String × α)) (k : String) (v : α)
    (h : (m.map Prod.fst).Nodup) : ((mapSet m k v).map Prod.fst).Nodup := by
  induction m with
  | nil => simp [mapSet]
  | cons q rest ih =>
    simp only [List.map_cons, List.nodup_cons] at h
    unfold mapSet
    by_cases hq : q.1 = k
    · rw [if_pos hq]
      simp only [List.map_cons, List.nodup_cons]
      exact h
    · rw [if_neg hq]
      simp only [List.map_cons, List.nodup_cons]
      refine ⟨?_, ih h.2⟩
      intro hmem
      rcases mapSet_keys_subset rest k v q.1 hmem with hh | hh
      · exact h.1 hh
      · exact hq hh

/-- Every entry of the `remainingPlugins` map built by the directory loader
comes from the descriptor list (later duplicates overwrite earlier ones). -/
theorem foldBuild_entries (descriptors : List (String × List String)) :
    ∀ (acc : List (String × List String)),
      ∀ p ∈ descriptors.foldl (fun m q => mapSet m q.1 q.2) acc,
        p ∈ acc ∨ p ∈ descriptors := by
  induction descriptors with
  | nil => intro acc p hp; exact Or.inl hp
  | cons d ds ih =>
    intro acc p hp
    rcases ih (mapSet acc d.1 d.2) p hp with hh | hh
    · rcases mem_mapSet_entries acc d.1 d.2 p hh with h2 | h2
      · exact Or.inl h2
      · exact Or.inr (by rw [h2]; exact List.mem_cons_self _ _)
    · exact Or.inr (List.mem_cons_of_mem _ hh)

/-- The `remainingPlugins` map has duplicate-free keys. -/
theorem foldBuild_nodup (descriptors : List (String × List String)) :
    ∀ (acc : List (String × List String)), ((acc.map Prod.fst).Nodup) →
      (((descriptors.foldl (fun m q => mapSet m q.1 q.2) acc).map
        Prod.fst)).Nodup := by
  induction descriptors with
  | nil => intro acc h; exact h
  | cons d ds ih =>
    intro acc h
    exact ih (mapSet acc d.1 d.2) (mapSet_keys_nodup acc d.1 d.2 h)

/-- The fixed-point loop (before the enclosing catch): a successful run loads
every plugin strictly after all of its declared dependencies, and a stalled
run throws `DependencyResolutionError` whose names are exactly the non-empty
terminal scan set, none of which was loaded and each of which still has an
unsatisfied dependency. -/
theorem dirLoad_fixed_point (ok : String → Bool)
    (descriptors : List (String × List String)) (depsOf : String → List String)
    (hagree : ∀ p ∈ descriptors, p.2 = depsOf p.1) :
    (∀ order, loadPluginsFromDirectoryModel ok descriptors = .ok order →
      extOrdered depsOf [] order) ∧
    (∀ names, loadPluginsFromDirectoryModel ok descriptors = .error names →
      names ≠ [] ∧ ∃ remFinal loadedFinal,
        names = remFinal.map Prod.fst ∧ remFinal ≠ [] ∧
        (∀ p ∈ remFinal, p.2 = depsOf p.1) ∧
        (∀ p ∈ remFinal, p.2.all (· ∈ loadedFinal) = false) ∧
        (∀ p ∈ remFinal, p.1 ∉ loadedFinal) ∧
        extOrdered depsOf [] loadedFinal) := by
  have hrem : ∀ p ∈ descriptors.foldl (fun m q => mapSet m q.1 q.2) [],
      p.2 = depsOf p.1 := by
    intro p hp
    rcases foldBuild_entries descriptors [] p hp with h | h
    · cases h
    · exact hagree p h
  exact dirLoopF_spec ok depsOf
    (descriptors.foldl (fun m q => mapSet m q.1 q.2) []).length
    (descriptors.foldl (fun m q => mapSet m q.1 q.2) []) [] hrem
    (foldBuild_nodup descriptors [] (by simp)) (by simp) le_rfl trivial

/-- C9 counterexample: for a single descriptor `b` depending on the missing
`x`, the fixed-point loop does throw `DependencyResolutionError(["b"])` —
but the enclosing catch of `loadPluginsFromDirectory` intercepts it, and the
function's caller-visible failure is a plain generic `Error` whose message
merely embeds the original message text; the typed
`DependencyResolutionError` and its `unresolvedPlugins` list never surface,
so the claim that the function "fails with DependencyResolutionError listing
all remaining plugin names" is false at the function boundary. -/
theorem dependency_resolution_error_wrapped_generic :
    loadPluginsFromDirectoryModel (fun _ => true) [("b", ["x"])] =
      .error ["b"] ∧
    loadPluginsFromDirectory (fun _ => true) [("b", ["x"])] =
      .error ("Failed to load plugins from directory: Cannot resolve plugin dependencies. Remaining plugins: b. Check for missing or circular dependencies.") := by
  decide

/-- C9 (amended): the fixed-point loop loads on each pass exactly the
descriptors whose full declared dependency list is already satisfied by
completed loads, so every plugin is loaded strictly after all of its declared
dependencies; when a full pass loads nothing and plugins remain unsatisfied,
the loop throws `DependencyResolutionError` listing all remaining (never
loaded, still unsatisfied) plugin names — but the function's enclosing catch
re-wraps that error, so the caller receives a plain generic error whose
message embeds the remaining names only textually
(`Failed to load plugins from directory: Cannot resolve plugin
dependencies. Remaining plugins: ...`). -/
theorem loadPluginsFromDirectory_fixed_point_boundary (ok : String → Bool)
    (descriptors : List (String × List String)) (depsOf : String → List String)
    (hagree : ∀ p ∈ descriptors, p.2 = depsOf p.1) :
    (∀ order, loadPluginsFromDirectory ok descriptors = .ok order →
      extOrdered depsOf [] order) ∧
    (∀ msg, loadPluginsFromDirectory ok descriptors = .error msg →
      ∃ names, loadPluginsFromDirectoryModel ok descriptors = .error names ∧
        msg = "Failed to load plugins from directory: " ++
          dependencyResolutionMessage names ∧
        names ≠ [] ∧ ∃ remFinal loadedFinal,
          names = remFinal.map Prod.fst ∧ remFinal ≠ [] ∧
          (∀ p ∈ remFinal, p.2 = depsOf p.1) ∧
          (∀ p ∈ remFinal, p.2.all (· ∈ loadedFinal) = false) ∧
          (∀ p ∈ remFinal, p.1 ∉ loadedFinal) ∧
          extOrdered depsOf [] loadedFinal) := by
  obtain ⟨hok, herr⟩ := dirLoad_fixed_point ok descriptors depsOf hagree
  unfold loadPluginsFromDirectory
  cases hres : loadPluginsFromDirectoryModel ok descriptors with
  | ok loaded =>
    constructor
    · intro order h
      injection h with h'
      exact hok order (h' ▸ hres)
    · intro msg h
      cases h
  | error names =>
    constructor
    · intro order h
      cases h
    · intro msg h
      injection h with h'
      obtain ⟨hne, rest⟩ := herr names hres
      exact ⟨names, rfl, h'.symm, hne, rest⟩

/-- C9 witness: the boundary theorem at the concrete descriptor set
`a` (no deps) and `b` (depends on `a`), all loads succeeding. -/
theorem loadPluginsFromDirectory_fixed_point_boundary_witness :
    (∀ p ∈ [("a", ([] : List String)), ("b", ["a"])], p.2 = c9depsOf p.1) ∧
    ((∀ order, loadPluginsFromDirectory (fun _ => true)
        [("a", []), ("b", ["a"])] = .ok order →
        extOrdered c9depsOf [] order) ∧
     (∀ msg, loadPluginsFromDirectory (fun _ => true)
        [("a", []), ("b", ["a"])] = .error msg →
        ∃ names, loadPluginsFromDirectoryModel (fun _ => true)
            [("a", []), ("b", ["a"])] = .error names ∧
          msg = "Failed to load plugins from directory: " ++
            dependencyResolutionMessage names ∧
          names ≠ [] ∧ ∃ remFinal loadedFinal,
            names = remFinal.map Prod.fst ∧ remFinal ≠ [] ∧
            (∀ p ∈ remFinal, p.2 = c9depsOf p.1) ∧
            (∀ p ∈ remFinal, p.2.all (· ∈ loadedFinal) = false) ∧
            (∀ p ∈ remFinal, p.1 ∉ loadedFinal) ∧
            extOrdered c9depsOf [] loadedFinal)) :=
  ⟨by decide,
    loadPluginsFromDirectory_fixed_point_boundary (fun _ => true)
      [("a", []), ("b", ["a"])] c9depsOf (by decide)⟩

end PluginSys


